import Mathlib

/-!
Verification of the snapshot-diff-and-notify engine of `bot.py`
(TruckersMP events bot): a shallow embedding of the Python source into
Lean 4, followed by theorems settling the specification claims.

The embedding models Python runtime values (`PyVal`), the diff engine
(`compare_events`, `detect_changes`), the timestamp renderer
(`discord_timestamp`), the fetcher's post-HTTP processing
(`fetch_events`), the embed builder (`build_embed`), and the durable
snapshot store (`save_db`/`load_db`, i.e. `json.dump`/`json.load` with
`indent=2, ensure_ascii=False`).
-/

set_option maxRecDepth 4000

/-- A Python runtime value, restricted to the JSON-representable fragment
the bot manipulates (numbers are modelled as integers; floats do not occur
in the data the bot handles and are outside the model). -/
inductive PyVal where
  | none : PyVal
  | bool : Bool → PyVal
  | int : Int → PyVal
  | str : String → PyVal
  | list : List PyVal → PyVal
  | dict : List (String × PyVal) → PyVal
  deriving Repr

mutual

/-- Structural equality of `PyVal`s, modelling Python `==` on
JSON-representable data (the cross-type corner `True == 1` of Python is
not modelled; no value the bot compares mixes `bool` with `int`). -/
def pyBeq : PyVal → PyVal → Bool
  | .none, .none => true
  | .bool a, .bool b => a == b
  | .int a, .int b => a == b
  | .str a, .str b => a == b
  | .list a, .list b => pyBeqList a b
  | .dict a, .dict b => pyBeqDict a b
  | _, _ => false

/-- Elementwise equality of Python lists. -/
def pyBeqList : List PyVal → List PyVal → Bool
  | [], [] => true
  | a :: as, b :: bs => pyBeq a b && pyBeqList as bs
  | _, _ => false

/-- Entrywise equality of Python dicts in insertion order (dicts built by
the bot are compared only via serialization or key lookup, both
order-respecting). -/
def pyBeqDict : List (String × PyVal) → List (String × PyVal) → Bool
  | [], [] => true
  | (k, a) :: as, (l, b) :: bs => k == l && pyBeq a b && pyBeqDict as bs
  | _, _ => false

end

mutual

theorem pyBeq_iff : ∀ a b, pyBeq a b = true ↔ a = b
  | .none, .none => by simp [pyBeq]
  | .bool a, .bool b => by simp [pyBeq]
  | .int a, .int b => by simp [pyBeq]
  | .str a, .str b => by simp [pyBeq]
  | .list a, .list b => by simp [pyBeq, pyBeqList_iff a b]
  | .dict a, .dict b => by simp [pyBeq, pyBeqDict_iff a b]
  | .none, .bool _ | .none, .int _ | .none, .str _ | .none, .list _ | .none, .dict _
  | .bool _, .none | .bool _, .int _ | .bool _, .str _ | .bool _, .list _ | .bool _, .dict _
  | .int _, .none | .int _, .bool _ | .int _, .str _ | .int _, .list _ | .int _, .dict _
  | .str _, .none | .str _, .bool _ | .str _, .int _ | .str _, .list _ | .str _, .dict _
  | .list _, .none | .list _, .bool _ | .list _, .int _ | .list _, .str _ | .list _, .dict _
  | .dict _, .none | .dict _, .bool _ | .dict _, .int _ | .dict _, .str _ | .dict _, .list _ => by
    simp [pyBeq]

theorem pyBeqList_iff : ∀ a b, pyBeqList a b = true ↔ a = b
  | [], [] => by simp [pyBeqList]
  | a :: as, b :: bs => by
    simp [pyBeqList, pyBeq_iff a b, pyBeqList_iff as bs]
  | [], _ :: _ => by simp [pyBeqList]
  | _ :: _, [] => by simp [pyBeqList]

theorem pyBeqDict_iff : ∀ a b, pyBeqDict a b = true ↔ a = b
  | [], [] => by simp [pyBeqDict]
  | (k, a) :: as, (l, b) :: bs => by
    simp [pyBeqDict, pyBeq_iff a b, pyBeqDict_iff as bs, and_assoc]
  | [], _ :: _ => by simp [pyBeqDict]
  | _ :: _, [] => by simp [pyBeqDict]

end

instance : DecidableEq PyVal := fun a b =>
  decidable_of_iff (pyBeq a b = true) (pyBeq_iff a b)

/-- Python truthiness (`bool(v)`) on the modelled values. -/
def pyTruthy : PyVal → Bool
  | .none => false
  | .bool b => b
  | .int i => i != 0
  | .str s => s ≠ ""
  | .list xs => !xs.isEmpty
  | .dict xs => !xs.isEmpty

/-- Little-endian base-10 digits of `n`, with explicit fuel so the
definition is structural (and hence evaluates by kernel reduction). -/
def natDigitsRev : Nat → Nat → List Nat
  | 0, _ => []
  | _ + 1, 0 => []
  | fuel + 1, n + 1 => ((n + 1) % 10) :: natDigitsRev fuel ((n + 1) / 10)

theorem natDigitsRev_eq_digits : ∀ fuel n, n ≤ fuel → natDigitsRev fuel n = Nat.digits 10 n
  | 0, 0, _ => by simp [natDigitsRev]
  | fuel + 1, 0, _ => by simp [natDigitsRev]
  | fuel + 1, n + 1, h => by
    rw [natDigitsRev, Nat.digits_def' (by norm_num : 1 < 10) (Nat.succ_pos n),
      natDigitsRev_eq_digits fuel ((n + 1) / 10)
        (Nat.le_of_lt_succ (Nat.lt_of_lt_of_le (Nat.div_lt_self (Nat.succ_pos n) (by norm_num)) h))]

/-- Decimal digit characters of a natural number, most significant first
(`"0"` for zero), as produced by Python `str(int)`. -/
def natDecChars (n : Nat) : List Char :=
  if n = 0 then ['0'] else ((natDigitsRev n n).map Nat.digitChar).reverse

/-- Python `str` of an integer. -/
def pyIntStr (i : Int) : String :=
  if i < 0 then String.mk ('-' :: natDecChars i.natAbs) else String.mk (natDecChars i.natAbs)

/-- Escape a backslash or the chosen quote character, for Python `repr`
of a string (escaping of non-printable characters is not modelled; no
claim depends on `repr` of a string containing them). -/
def pyQuoteEsc (q : Char) : List Char → List Char
  | [] => []
  | c :: rest =>
    if c = '\\' || c = q then '\\' :: c :: pyQuoteEsc q rest else c :: pyQuoteEsc q rest

/-- Python `repr` of a string: single quotes, switching to double quotes
when the string contains a single quote but no double quote. -/
def pyStrRepr (s : String) : String :=
  if s.data.contains '\'' && !(s.data.contains '"') then
    String.mk ('"' :: pyQuoteEsc '"' s.data ++ ['"'])
  else
    String.mk ('\'' :: pyQuoteEsc '\'' s.data ++ ['\''])

mutual

/-- Python `repr` of a value (used by `str` on lists and dicts). -/
def pyRepr : PyVal → String
  | .none => "None"
  | .bool b => if b then "True" else "False"
  | .int i => pyIntStr i
  | .str s => pyStrRepr s
  | .list xs => "[" ++ pyReprList xs ++ "]"
  | .dict xs => "\x7b" ++ pyReprDict xs ++ "\x7d"

/-- Comma-separated `repr`s of the elements of a Python list. -/
def pyReprList : List PyVal → String
  | [] => ""
  | [v] => pyRepr v
  | v :: rest => pyRepr v ++ ", " ++ pyReprList rest

/-- Comma-separated `key: value` `repr`s of the entries of a Python dict. -/
def pyReprDict : List (String × PyVal) → String
  | [] => ""
  | [(k, v)] => pyStrRepr k ++ ": " ++ pyRepr v
  | (k, v) :: rest => pyStrRepr k ++ ": " ++ pyRepr v ++ ", " ++ pyReprDict rest

end

/-- Python `str` of a value, as used by f-string interpolation. -/
def pyStr : PyVal → String
  | .str s => s
  | v => pyRepr v

/-- `d.get(k)` on a Python dict: the value under `k`, or `None` when the
key is absent. -/
def dictGet (d : List (String × PyVal)) (k : String) : PyVal :=
  (List.lookup k d).getD .none

/-- An event record: a Python dict as delivered by the API
(`bot.py` accesses it only through string keys). -/
abbrev Event : Type := List (String × PyVal)

/-- A snapshot: the Python dict mapping event id (a string) to event
record, in insertion order (`events_db.json` content / `fetch_events`
result). -/
abbrev Snapshot : Type := List (String × Event)

example : pyIntStr (-45) = "-45" := by decide
example : pyIntStr 0 = "0" := by decide
example : pyIntStr 1704067200 = "1704067200" := by decide
example : pyStr (.dict [("a", .str "x")]) = "\x7b'a': 'x'\x7d" := by decide

/-! ## `discord_timestamp` (bot.py lines 64-70)

`datetime.strptime(dt_str, "%Y-%m-%d %H:%M:%S")` is modelled after
CPython's `_strptime`: `%Y` is exactly four digits; `%m`, `%d`, `%H`,
`%M`, `%S` are one or two digits constrained to the regex ranges
(month 1-12, day 1-31, hour 0-23, minute 0-59, second 0-61); the space
in the format matches one or more whitespace characters; the whole
string must be consumed.  The `datetime` constructor then rejects
year 0, a day beyond the month's length, and seconds 60-61; any failure
is caught and the raw string is returned unchanged (fail open). -/

/-- Whitespace for `\s` in CPython's strptime regex. -/
def isPyWs (c : Char) : Bool :=
  c = ' ' || c = '\t' || c = '\n' || c = '\r' || c = '\x0b' || c = '\x0c'

/-- Numeric value of a decimal digit character. -/
def digitVal (c : Char) : Nat := c.toNat - '0'.toNat

/-- One strptime numeric field: greedily a two-digit value satisfying
`valid2`, else a one-digit value satisfying `valid1` (equivalent to the
backtracking regex because a successful two-digit match leaves a
non-digit where the one-digit alternative would need the next literal). -/
def parseField2or1 (valid2 valid1 : Nat → Bool) : List Char → Option (Nat × List Char)
  | [] => Option.none
  | [c] =>
    if c.isDigit && valid1 (digitVal c) then some (digitVal c, []) else Option.none
  | c1 :: c2 :: rest =>
    if c1.isDigit then
      if c2.isDigit && valid2 (10 * digitVal c1 + digitVal c2) then
        some (10 * digitVal c1 + digitVal c2, rest)
      else if valid1 (digitVal c1) then some (digitVal c1, c2 :: rest)
      else Option.none
    else Option.none

/-- Exactly four digits, for `%Y`. -/
def parseYear4 : List Char → Option (Nat × List Char)
  | c1 :: c2 :: c3 :: c4 :: rest =>
    if c1.isDigit && c2.isDigit && c3.isDigit && c4.isDigit then
      some (1000 * digitVal c1 + 100 * digitVal c2 + 10 * digitVal c3 + digitVal c4, rest)
    else Option.none
  | _ => Option.none

/-- A literal character of the format string. -/
def parseLit (c : Char) : List Char → Option (List Char)
  | d :: rest => if d = c then some rest else Option.none
  | [] => Option.none

/-- `\s+`: at least one whitespace character. -/
def parseWs1 (cs : List Char) : Option (List Char) :=
  match cs with
  | c :: rest => if isPyWs c then some (rest.dropWhile isPyWs) else Option.none
  | [] => Option.none

/-- A parsed `%Y-%m-%d %H:%M:%S` timestamp (pre-validation). -/
structure YmdHms where
  year : Nat
  month : Nat
  day : Nat
  hour : Nat
  minute : Nat
  second : Nat
  deriving Repr, DecidableEq

/-- Gregorian leap year (as in `datetime`). -/
def isLeapYear (y : Nat) : Bool := y % 4 = 0 && (y % 100 ≠ 0 || y % 400 = 0)

/-- Length of a month in `datetime`'s proleptic Gregorian calendar. -/
def daysInMonth (y m : Nat) : Nat :=
  if m = 2 then (if isLeapYear y then 29 else 28)
  else if m = 4 || m = 6 || m = 9 || m = 11 then 30
  else 31

/-- Days in the months strictly before month `m`. -/
def daysBeforeMonth (y m : Nat) : Nat :=
  (if m ≥ 2 then 31 else 0) + (if m ≥ 3 then daysInMonth y 2 else 0) +
  (if m ≥ 4 then 31 else 0) + (if m ≥ 5 then 30 else 0) +
  (if m ≥ 6 then 31 else 0) + (if m ≥ 7 then 30 else 0) +
  (if m ≥ 8 then 31 else 0) + (if m ≥ 9 then 31 else 0) +
  (if m ≥ 10 then 30 else 0) + (if m ≥ 11 then 31 else 0) +
  (if m ≥ 12 then 30 else 0)

/-- Day count of `y-m-d` from 0001-01-01 (that date being day 0). -/
def daysFromYear1 (y m d : Nat) : Nat :=
  (y - 1) * 365 + ((y - 1) / 4 - (y - 1) / 100 + (y - 1) / 400) + daysBeforeMonth y m + (d - 1)

/-- Days between 0001-01-01 and 1970-01-01. -/
def epochDayOffset : Nat := 719162

/-- `int(datetime(y,m,d,h,mi,s,tzinfo=utc).timestamp())`: seconds since
the Unix epoch (exact, so `int(...)` is the identity). -/
def unixTimestamp (t : YmdHms) : Int :=
  ((daysFromYear1 t.year t.month t.day : Int) - epochDayOffset) * 86400 +
    t.hour * 3600 + t.minute * 60 + t.second

/-- `datetime.strptime(s, "%Y-%m-%d %H:%M:%S")`: regex match plus the
`datetime` constructor's range validation. -/
def pyStrptime (s : String) : Option YmdHms :=
  match parseYear4 s.data with
  | Option.none => Option.none
  | some (y, cs) =>
  match parseLit '-' cs with
  | Option.none => Option.none
  | some cs =>
  match parseField2or1 (fun v => 1 ≤ v && v ≤ 12) (fun v => 1 ≤ v && v ≤ 9) cs with
  | Option.none => Option.none
  | some (mo, cs) =>
  match parseLit '-' cs with
  | Option.none => Option.none
  | some cs =>
  match parseField2or1 (fun v => 1 ≤ v && v ≤ 31) (fun v => 1 ≤ v && v ≤ 9) cs with
  | Option.none => Option.none
  | some (d, cs) =>
  match parseWs1 cs with
  | Option.none => Option.none
  | some cs =>
  match parseField2or1 (fun v => v ≤ 23) (fun _ => true) cs with
  | Option.none => Option.none
  | some (h, cs) =>
  match parseLit ':' cs with
  | Option.none => Option.none
  | some cs =>
  match parseField2or1 (fun v => v ≤ 59) (fun _ => true) cs with
  | Option.none => Option.none
  | some (mi, cs) =>
  match parseLit ':' cs with
  | Option.none => Option.none
  | some cs =>
  match parseField2or1 (fun v => v ≤ 61) (fun _ => true) cs with
  | Option.none => Option.none
  | some (sec, cs) =>
  if cs = [] && 1 ≤ y && d ≤ daysInMonth y mo && sec ≤ 59 then
    some ⟨y, mo, d, h, mi, sec⟩
  else Option.none

/-- `discord_timestamp(dt_str, style)` (bot.py lines 64-70): render the
parsed timestamp as `<t:UNIX:style>`, or return the raw string unchanged
when parsing fails. -/
def discordTimestamp (dtStr : String) (style : String) : String :=
  match pyStrptime dtStr with
  | some t => "<t:" ++ pyIntStr (unixTimestamp t) ++ ":" ++ style ++ ">"
  | Option.none => dtStr

/-- `discord_timestamp` applied to a `PyVal` as in `compare_events`: a
non-string argument makes `strptime` raise `TypeError`, which the
`except` clause turns into returning the argument unchanged. -/
def pyDiscordTs (v : PyVal) : PyVal :=
  match v with
  | .str s => .str (discordTimestamp s "F")
  | v => v

example : discordTimestamp "2024-01-01 00:00:00" "F" = "<t:1704067200:F>" := by decide
example : discordTimestamp "1970-01-01 00:00:00" "F" = "<t:0:F>" := by decide
example : discordTimestamp "1969-12-31 23:59:59" "F" = "<t:-1:F>" := by decide
example : discordTimestamp "2025-1-2 03:04:05" "F" = discordTimestamp "2025-01-02 03:04:05" "F" := by decide
example : discordTimestamp "not a date" "F" = "not a date" := by decide
example : discordTimestamp "2024-02-30 00:00:00" "F" = "2024-02-30 00:00:00" := by decide

/-! ## `compare_events` (bot.py lines 188-236) -/

/-- The `fields_to_check` dict of `compare_events`, in insertion order:
tracked key → human-readable label. -/
def fieldsToCheck : List (String × String) :=
  [("name", "Name"), ("start_at", "Start Time"), ("meetup_at", "Meetup Time"),
   ("server", "Server"), ("map", "Map"), ("banner", "Banner"),
   ("departure", "Start Location"), ("arrive", "End Location"),
   ("description", "Description")]

/-- The per-key normalization `compare_events` applies identically to
`old_val` and `new_val` before comparing (bot.py lines 206-220):
`server` dicts reduce to their `name`, `departure`/`arrive` dicts reduce
to the display string `f"{city} ({location})"`, truthy `start_at`/`meetup_at`
values are rendered through `discord_timestamp`. -/
def normalizeVal (key : String) (v : PyVal) : PyVal :=
  let v := if key = "server" then
    (match v with | .dict d => dictGet d "name" | v => v) else v
  let v := if key = "departure" || key = "arrive" then
    (match v with
     | .dict d => .str (pyStr (dictGet d "city") ++ " (" ++ pyStr (dictGet d "location") ++ ")")
     | v => v) else v
  let v := if key = "start_at" || key = "meetup_at" then
    (if pyTruthy v then pyDiscordTs v else v) else v
  v

/-- One iteration of the `compare_events` loop for tracked key `key` with
label `label`: fetch both sides with `.get`, normalize, and emit the diff
entry when they differ.  The `description` branch logs the old/new text
to stdout (a side effect outside the model) and then records the same
`(old_val, new_val)` entry via `diffs[label] = (old_val, new_val)` before
`continue`, so its emitted entry coincides with the generic branch. -/
def compareField (oldEvent newEvent : Event) (key label : String) :
    Option (String × PyVal × PyVal) :=
  let oldVal := normalizeVal key (dictGet oldEvent key)
  let newVal := normalizeVal key (dictGet newEvent key)
  if key = "description" then
    if oldVal ≠ newVal then some (label, oldVal, newVal) else Option.none
  else
    if oldVal ≠ newVal then some (label, oldVal, newVal) else Option.none

/-- `compare_events(old_event, new_event)`: the `diffs` dict in insertion
order.  The nine labels of `fields_to_check` are pairwise distinct, so the
dict assignments `diffs[label] = (old_val, new_val)` append in loop order
and the result is exactly this `filterMap`. -/
def compareEvents (oldEvent newEvent : Event) : List (String × PyVal × PyVal) :=
  fieldsToCheck.filterMap (fun p => compareField oldEvent newEvent p.1 p.2)

/-! ## `detect_changes` (bot.py lines 170-185) -/

/-- A change record as built by `detect_changes`: the tuple
`(change_type, event, diffs)` with `diffs` present only for updates. -/
abbrev Change : Type := String × Event × Option (List (String × PyVal × PyVal))

/-- The first `detect_changes` loop body for an entry `(event_id, event)`
of `new_db`: a `created` record when the id is absent from `old_db`,
an `updated` record when `compare_events` finds diffs, nothing otherwise. -/
def createdOrUpdated (oldDb : Snapshot) (p : String × Event) : Option Change :=
  match List.lookup p.1 oldDb with
  | Option.none => some ("created", p.2, Option.none)
  | some oldEvent =>
    let diffs := compareEvents oldEvent p.2
    if diffs.isEmpty then Option.none else some ("updated", p.2, some diffs)

/-- The second `detect_changes` loop body for an entry `(event_id, event)`
of `old_db`: a `removed` record when the id is absent from `new_db`. -/
def removedChange (newDb : Snapshot) (p : String × Event) : Option Change :=
  if (List.lookup p.1 newDb).isSome then Option.none else some ("removed", p.2, Option.none)

/-- `detect_changes(old_db, new_db)`: start from the empty `changes` list,
run the first loop over `new_db` and the second over `old_db`, each
iteration appending the loop body's emitted record, if any
(`(…).toList` is `[c]` when the body called `changes.append(c)` and `[]`
when it appended nothing). -/
def detectChanges (oldDb newDb : Snapshot) : List Change :=
  let changes : List Change := []
  let changes := newDb.foldl (fun changes p => changes ++ (createdOrUpdated oldDb p).toList) changes
  let changes := oldDb.foldl (fun changes p => changes ++ (removedChange newDb p).toList) changes
  changes

/-- One polling-loop iteration after fetching (bot.py lines 266-275, and
identically lines 252-256 for the non-empty bootstrap cycle): compute the
changes, and when the list is non-empty send one notification per change
in order and save `new_db`; otherwise send nothing and save nothing.
Returns (notifications sent in order, snapshot written, if any). -/
def pollCycle (oldDb newDb : Snapshot) : List Change × Option Snapshot :=
  let changes := detectChanges oldDb newDb
  if changes.isEmpty then (changes, Option.none) else (changes, some newDb)

/-! ## `fetch_events` (bot.py lines 35-61) -/

/-- Python exceptions raised by unguarded code paths of `bot.py`. -/
inductive PyErr where
  | keyError (key : String)
  | typeError
  | attributeError
  deriving Repr, DecidableEq

/-- The observable outcome of `requests.get(API_URL, timeout=15)`
together with the body's JSON parse status: either the request raised
`requests.RequestException`, or it returned a status code and a body
that is valid JSON (`some v`) or is not (`Option.none`). -/
inductive HttpResult where
  | exn : HttpResult
  | resp (status : Nat) (body : Option PyVal) : HttpResult
  deriving Repr, DecidableEq

/-- Python dict assignment `d[k] = v`: overwrite in place when the key
exists, append otherwise. -/
def dictInsert {α : Type} (d : List (String × α)) (k : String) (v : α) : List (String × α) :=
  if (List.lookup k d).isSome then
    d.map (fun p => if p.1 = k then (k, v) else p)
  else d ++ [(k, v)]

/-- The dict comprehension `{str(ev["id"]): ev for ev in data["response"]}`:
each element must be a dict carrying an `"id"` key; a missing key raises
`KeyError`, a non-dict element raises `TypeError`. -/
def buildEventDict (acc : Snapshot) : List PyVal → Except PyErr Snapshot
  | [] => .ok acc
  | ev :: rest =>
    match ev with
    | .dict evd =>
      match List.lookup "id" evd with
      | some idVal => buildEventDict (dictInsert acc (pyStr idVal) evd) rest
      | Option.none => .error (.keyError "id")
    | _ => .error .typeError

/-- `fetch_events()` after the HTTP call: a request exception, a
non-200 status, or an invalid-JSON body each yield `{}`; a valid JSON
body is inspected — the debug `print` of `list(data.keys())` raises
`AttributeError` on a non-dict body, a truthy non-list `response` value
fails while being iterated/indexed, and otherwise the events dict is
built (or `{}` when `error` is truthy or `response` is falsy). -/
def fetchEvents (r : HttpResult) : Except PyErr Snapshot :=
  match r with
  | .exn => .ok []
  | .resp status body =>
    if status ≠ 200 then .ok []
    else
      match body with
      | Option.none => .ok []
      | some data =>
        match data with
        | .dict d =>
          if !pyTruthy (dictGet d "error") && pyTruthy (dictGet d "response") then
            match dictGet d "response" with
            | .list evs => buildEventDict [] evs
            | _ => .error .typeError
          else .ok []
        | _ => .error .attributeError

/-! ## `build_embed` (bot.py lines 73-152) -/

/-- Python `d[k]` on an arbitrary value: `KeyError` when a dict lacks the
key, `TypeError` when the value is not a dict. -/
def pyIndex (v : PyVal) (k : String) : Except PyErr PyVal :=
  match v with
  | .dict d =>
    match List.lookup k d with
    | some w => .ok w
    | Option.none => .error (.keyError k)
  | _ => .error .typeError

/-- `event[k]` on an event record. -/
def evIndex (e : Event) (k : String) : Except PyErr PyVal :=
  match List.lookup k e with
  | some w => .ok w
  | Option.none => .error (.keyError k)

/-- `event.get(k, "")` (used for `map` and `banner`). -/
def evGetStr (e : Event) (k : String) : PyVal :=
  match List.lookup k e with
  | some w => w
  | Option.none => .str ""

/-- Lines 74-78 of `build_embed`: the meetup-time value, `"Not specified"`
when `meetup_at` is absent or falsy. -/
def meetupTimeOf (event : Event) : PyVal :=
  if pyTruthy (dictGet event "meetup_at") then pyDiscordTs (dictGet event "meetup_at")
  else .str "Not specified"

/-- Lines 79-83 of `build_embed`: the departure-time value. -/
def departureTimeOf (event : Event) : PyVal :=
  if pyTruthy (dictGet event "start_at") then pyDiscordTs (dictGet event "start_at")
  else .str "Not specified"

/-- Lines 139-147 of `build_embed`: one rendered diff line per entry of
`diffs`, with the `Description` entry collapsed to a generic marker that
carries neither the old nor the new text. -/
def diffLinesOf (diffs : List (String × PyVal × PyVal)) : List String :=
  diffs.map (fun p =>
    if p.1 = "Description" then "📝 **Description changed**"
    else "**" ++ p.1 ++ ":** `" ++ pyStr p.2.1 ++ "` -> `" ++ pyStr p.2.2 ++ "`")

/-- The parts of the webhook payload built by `build_embed` that the
claims inspect (`username`, colors, image/thumbnail/footer and the
wall-clock `timestamp` field are either constants or outside the model's
concerns but are kept where cheap). -/
structure Embed where
  title : String
  color : Nat
  eventDate : PyVal
  meetupTime : PyVal
  departureTime : PyVal
  serverName : PyVal
  startLocation : String
  endLocation : String
  imageUrl : PyVal
  thumbnailUrl : PyVal
  changesField : Option String
  deriving Repr, DecidableEq

/-- `build_embed(event, change_type, diffs)` with Python's evaluation
order: the `.get`-guarded meetup/departure times never raise, then
`event["start_at"]` on line 84 is the first unguarded subscript, then the
location, title and payload subscripts follow.  `KeyError`/`TypeError`
from any subscript propagates to the caller. -/
def buildEmbed (event : Event) (changeType : String)
    (diffs : Option (List (String × PyVal × PyVal))) : Except PyErr Embed := do
  let meetupTime := meetupTimeOf event
  let departureTime := departureTimeOf event
  let startAtV ← evIndex event "start_at"
  let eventDate := pyDiscordTs startAtV
  let departureV ← evIndex event "departure"
  let depCity ← pyIndex departureV "city"
  let depLoc ← pyIndex departureV "location"
  let startLocation := pyStr depCity ++ " (" ++ pyStr depLoc ++ ")"
  let arriveV ← evIndex event "arrive"
  let arrCity ← pyIndex arriveV "city"
  let arrLoc ← pyIndex arriveV "location"
  let endLocation := pyStr arrCity ++ " (" ++ pyStr arrLoc ++ ")"
  let nameV ← evIndex event "name"
  let (title, color) :=
    if changeType = "created" then ("🆕 Event Added: **" ++ pyStr nameV ++ "**", 0x2ECC71)
    else if changeType = "removed" then ("❌ Event Removed: **" ++ pyStr nameV ++ "**", 0xE74C3C)
    else ("🔄 Event Updated: **" ++ pyStr nameV ++ "**", 0xE67E22)
  let _ ← evIndex event "url"
  let vtcV ← evIndex event "vtc"
  let _ ← pyIndex vtcV "name"
  let _ ← evIndex event "game"
  let serverV ← evIndex event "server"
  let serverName ← pyIndex serverV "name"
  let _ ← evIndex event "id"
  let changesField :=
    if changeType = "updated" && (match diffs with
        | some l => !l.isEmpty
        | Option.none => false) then
      let diffText := String.intercalate "\n" (diffLinesOf (diffs.getD []))
      some (if diffText = "" then "No details" else diffText)
    else Option.none
  pure { title := title, color := color, eventDate := eventDate,
         meetupTime := meetupTime, departureTime := departureTime,
         serverName := serverName, startLocation := startLocation,
         endLocation := endLocation, imageUrl := evGetStr event "map",
         thumbnailUrl := evGetStr event "banner", changesField := changesField }

/-! ## `save_db` / `load_db` (bot.py lines 22-32)

`save_db` writes `json.dump(data, f, indent=2, ensure_ascii=False)`;
`load_db` reads the file back with `json.load`, returning `{}` when the
file is absent or its content is not valid JSON.  The serializer and the
parser are modelled character by character on the JSON fragment `PyVal`
covers (floats and `\uXXXX` surrogate pairs are outside the model;
see `PyVal`). -/

/-- The characters `json.dump` emits for one string character with
`ensure_ascii=False`: escape `"` and `\`, shorthand escapes for common
control characters, `\u00XX` for the remaining control characters,
everything else written raw. -/
def jsonEscChar (c : Char) : List Char :=
  if c = '"' then ['\\', '"']
  else if c = '\\' then ['\\', '\\']
  else if c = '\n' then ['\\', 'n']
  else if c = '\t' then ['\\', 't']
  else if c = '\r' then ['\\', 'r']
  else if c = '\x08' then ['\\', 'b']
  else if c = '\x0c' then ['\\', 'f']
  else if c.toNat < 0x20 then
    ['\\', 'u', '0', '0', Nat.digitChar (c.toNat / 16), Nat.digitChar (c.toNat % 16)]
  else [c]

/-- JSON escaping of a character sequence. -/
def jsonEscList : List Char → List Char
  | [] => []
  | c :: rest => jsonEscChar c ++ jsonEscList rest

/-- A serialized JSON string literal. -/
def jsonStrChars (s : String) : List Char :=
  '"' :: jsonEscList s.data ++ ['"']

/-- The newline-plus-indentation separator `json.dump` emits before each
item at nesting depth `n / 2`. -/
def nlIndent (n : Nat) : List Char := '\n' :: List.replicate n ' '

mutual

/-- The characters `json.dump(v, indent=2, ensure_ascii=False)` writes for
a value at indentation `ind` (empty containers stay inline). -/
def jsonDumpVal (ind : Nat) : PyVal → List Char
  | .none => "null".data
  | .bool b => if b then "true".data else "false".data
  | .int i => (pyIntStr i).data
  | .str s => jsonStrChars s
  | .list xs =>
    match xs with
    | [] => ['[', ']']
    | _ => '[' :: (jsonDumpItems (ind + 2) xs ++ nlIndent ind ++ [']'])
  | .dict xs =>
    match xs with
    | [] => ['\x7b', '\x7d']
    | _ => '\x7b' :: (jsonDumpMembers (ind + 2) xs ++ nlIndent ind ++ ['\x7d'])

/-- Serialized list items, each on its own indented line, separated by
commas. -/
def jsonDumpItems (ind : Nat) : List PyVal → List Char
  | [] => []
  | [v] => nlIndent ind ++ jsonDumpVal ind v
  | v :: rest => nlIndent ind ++ jsonDumpVal ind v ++ ',' :: jsonDumpItems ind rest

/-- Serialized dict members `"key": value`, each on its own indented
line, separated by commas. -/
def jsonDumpMembers (ind : Nat) : List (String × PyVal) → List Char
  | [] => []
  | [(k, v)] => nlIndent ind ++ (jsonStrChars k ++ ':' :: ' ' :: jsonDumpVal ind v)
  | (k, v) :: rest =>
    nlIndent ind ++ (jsonStrChars k ++ ':' :: ' ' :: jsonDumpVal ind v) ++ ',' :: jsonDumpMembers ind rest

end

/-- The whitespace characters JSON ignores between tokens. -/
def isJsonWs (c : Char) : Bool := c = ' ' || c = '\t' || c = '\n' || c = '\r'

/-- Drop leading JSON whitespace. -/
def skipWs : List Char → List Char
  | [] => []
  | c :: rest => if isJsonWs c then skipWs rest else c :: rest

/-- Hexadecimal digit value, if any. -/
def hexVal (c : Char) : Option Nat :=
  if c.isDigit then some (digitVal c)
  else if 'a' ≤ c && c ≤ 'f' then some (c.toNat - 'a'.toNat + 10)
  else if 'A' ≤ c && c ≤ 'F' then some (c.toNat - 'A'.toNat + 10)
  else Option.none

/-- Parse the body of a JSON string literal (after the opening quote) up
to its closing quote: shorthand escapes, `\uXXXX` (for scalar values; the
surrogate-pair combination step of the Python decoder is outside the
model), and raw characters, rejecting raw control characters as Python's
strict mode does. -/
def parseJStrBody : List Char → Option (List Char × List Char)
  | [] => Option.none
  | c :: rest =>
    if c = '"' then some ([], rest)
    else if c = '\\' then
      match rest with
      | [] => Option.none
      | e :: rest2 =>
        if e = '"' || e = '\\' || e = '/' then
          (parseJStrBody rest2).map (fun p => (e :: p.1, p.2))
        else if e = 'b' then (parseJStrBody rest2).map (fun p => ('\x08' :: p.1, p.2))
        else if e = 'f' then (parseJStrBody rest2).map (fun p => ('\x0c' :: p.1, p.2))
        else if e = 'n' then (parseJStrBody rest2).map (fun p => ('\n' :: p.1, p.2))
        else if e = 'r' then (parseJStrBody rest2).map (fun p => ('\r' :: p.1, p.2))
        else if e = 't' then (parseJStrBody rest2).map (fun p => ('\t' :: p.1, p.2))
        else if e = 'u' then
          match rest2 with
          | h1 :: h2 :: h3 :: h4 :: rest3 =>
            match hexVal h1, hexVal h2, hexVal h3, hexVal h4 with
            | some a, some b, some c', some d =>
              let n := 4096 * a + 256 * b + 16 * c' + d
              if h : n.isValidChar then
                (parseJStrBody rest3).map (fun p => (Char.ofNatAux n h :: p.1, p.2))
              else Option.none
            | _, _, _, _ => Option.none
          | _ => Option.none
        else Option.none
    else if c.toNat < 0x20 then Option.none
    else (parseJStrBody rest).map (fun p => (c :: p.1, p.2))

/-- Accumulate decimal digits. -/
def parseDigitsAux (acc : Nat) : List Char → Nat × List Char
  | [] => (acc, [])
  | c :: rest =>
    if c.isDigit then parseDigitsAux (acc * 10 + digitVal c) rest else (acc, c :: rest)

/-- Parse a JSON number restricted to the integer fragment of the model:
an optional minus sign and digits; a following `.`, `e` or `E` would make
it a float, which `PyVal` does not represent, so the parse fails there. -/
def parseJNum : List Char → Option (Int × List Char)
  | cs =>
    let (neg, cs') := match cs with
      | c :: r => if c = '-' then (true, r) else (false, c :: r)
      | [] => (false, [])
    match cs' with
    | c :: _ =>
      if c.isDigit then
        let (n, rest) := parseDigitsAux 0 cs'
        let bad := match rest with
          | d :: _ => d = '.' || d = 'e' || d = 'E'
          | [] => false
        if bad then Option.none
        else some (if neg then -(n : Int) else (n : Int), rest)
      else Option.none
    | [] => Option.none

/-- Python dict construction from parsed members, in order, later
duplicates overwriting earlier ones. -/
def buildPyDict (ms : List (String × PyVal)) : List (String × PyVal) :=
  ms.foldl (fun d p => dictInsert d p.1 p.2) []

mutual

/-- Fuel-indexed JSON value parsing (the fuel strictly decreases on every
recursive call; `jsonLoads` supplies more fuel than any input can use). -/
def parseJVal : Nat → List Char → Option (PyVal × List Char)
  | 0, _ => Option.none
  | fuel + 1, cs =>
    match skipWs cs with
    | [] => Option.none
    | c :: rest =>
      if c = '\x7b' then
        match skipWs rest with
        | [] => Option.none
        | c2 :: rest2 =>
          if c2 = '\x7d' then some (.dict [], rest2)
          else (parseJMembers fuel (c2 :: rest2)).map (fun p => (.dict (buildPyDict p.1), p.2))
      else if c = '[' then
        match skipWs rest with
        | [] => Option.none
        | c2 :: rest2 =>
          if c2 = ']' then some (.list [], rest2)
          else (parseJItems fuel (c2 :: rest2)).map (fun p => (.list p.1, p.2))
      else if c = '"' then
        (parseJStrBody rest).map (fun p => (.str (String.mk p.1), p.2))
      else if c = 'n' then
        match rest with
        | 'u' :: 'l' :: 'l' :: r => some (.none, r)
        | _ => Option.none
      else if c = 't' then
        match rest with
        | 'r' :: 'u' :: 'e' :: r => some (.bool true, r)
        | _ => Option.none
      else if c = 'f' then
        match rest with
        | 'a' :: 'l' :: 's' :: 'e' :: r => some (.bool false, r)
        | _ => Option.none
      else
        (parseJNum (c :: rest)).map (fun p => (.int p.1, p.2))

/-- Parse `"key": value` members up to the closing brace (the input
starts at the first key, whitespace already skipped). -/
def parseJMembers : Nat → List Char → Option (List (String × PyVal) × List Char)
  | 0, _ => Option.none
  | fuel + 1, cs =>
    match cs with
    | '"' :: rest =>
      match parseJStrBody rest with
      | Option.none => Option.none
      | some (kcs, rest2) =>
        match skipWs rest2 with
        | ':' :: rest3 =>
          match parseJVal fuel rest3 with
          | Option.none => Option.none
          | some (v, rest4) =>
            match skipWs rest4 with
            | ',' :: rest5 =>
              (parseJMembers fuel (skipWs rest5)).map
                (fun p => ((String.mk kcs, v) :: p.1, p.2))
            | '\x7d' :: rest5 => some ([(String.mk kcs, v)], rest5)
            | _ => Option.none
        | _ => Option.none
    | _ => Option.none

/-- Parse array items up to the closing bracket (the input starts at the
first item, whitespace already skipped). -/
def parseJItems : Nat → List Char → Option (List PyVal × List Char)
  | 0, _ => Option.none
  | fuel + 1, cs =>
    match parseJVal fuel cs with
    | Option.none => Option.none
    | some (v, rest) =>
      match skipWs rest with
      | ',' :: rest2 => (parseJItems fuel (skipWs rest2)).map (fun p => (v :: p.1, p.2))
      | ']' :: rest2 => some ([v], rest2)
      | _ => Option.none

end

/-- `json.loads`: parse one value and insist nothing but whitespace
follows. -/
def jsonLoads (s : String) : Option PyVal :=
  match parseJVal (s.data.length + 1) s.data with
  | some (v, rest) => if skipWs rest = [] then some v else Option.none
  | Option.none => Option.none

/-- `save_db(data)` (bot.py lines 30-32): the file content written by
`json.dump(data, f, indent=2, ensure_ascii=False)`. -/
def saveDb (data : List (String × PyVal)) : String :=
  String.mk (jsonDumpVal 0 (.dict data))

/-- `load_db()` (bot.py lines 22-27) on a file whose content is `file`
(`Option.none` when the file is absent): the parsed JSON value, or `{}`
on absence or `json.JSONDecodeError`. -/
def loadDb (file : Option String) : PyVal :=
  match file with
  | Option.none => .dict []
  | some s =>
    match jsonLoads s with
    | some v => v
    | Option.none => .dict []

mutual

/-- Well-formedness of a value as Python data: every dict (at any depth)
has pairwise-distinct keys, which is automatic for values that exist as
Python dicts. -/
def pyWf : PyVal → Bool
  | .none => true
  | .bool _ => true
  | .int _ => true
  | .str _ => true
  | .list xs => pyWfList xs
  | .dict xs => pyWfDict xs

/-- Well-formedness of list elements. -/
def pyWfList : List PyVal → Bool
  | [] => true
  | v :: rest => pyWf v && pyWfList rest

/-- Well-formedness of dict entries: the head key does not recur, all
values well-formed. -/
def pyWfDict : List (String × PyVal) → Bool
  | [] => true
  | (k, v) :: rest => (List.lookup k rest).isNone && pyWf v && pyWfDict rest

end

mutual

/-- Structural size of a value, used as the fuel bound for `parseJVal`. -/
def pySize : PyVal → Nat
  | .none => 1
  | .bool _ => 1
  | .int _ => 1
  | .str _ => 1
  | .list xs => 1 + pySizeList xs
  | .dict xs => 1 + pySizeDict xs

/-- Summed size of list elements. -/
def pySizeList : List PyVal → Nat
  | [] => 0
  | v :: rest => 1 + pySize v + pySizeList rest

/-- Summed size of dict entries. -/
def pySizeDict : List (String × PyVal) → Nat
  | [] => 0
  | (_, v) :: rest => 1 + pySize v + pySizeDict rest

end

/-! ## Shared lemmas about association lists and the diff engine -/

theorem foldl_append_filterMap {α β : Type _} (f : α → Option β) :
    ∀ (xs : List α) (acc : List β),
      xs.foldl (fun a x => a ++ (f x).toList) acc = acc ++ xs.filterMap f
  | [], acc => by simp
  | x :: xs, acc => by
    cases h : f x <;>
      simp [List.filterMap_cons, h, foldl_append_filterMap f xs]

theorem detectChanges_decomp (oldDb newDb : Snapshot) :
    detectChanges oldDb newDb
      = newDb.filterMap (createdOrUpdated oldDb) ++ oldDb.filterMap (removedChange newDb) := by
  simp only [detectChanges]
  rw [foldl_append_filterMap, foldl_append_filterMap]
  simp

theorem lookup_cons_self {β : Type _} {k : String} {v : β} {l : List (String × β)} :
    List.lookup k ((k, v) :: l) = some v := by
  simp [List.lookup_cons]

theorem lookup_cons_ne {β : Type _} {k k0 : String} {v : β} {l : List (String × β)}
    (h : k ≠ k0) : List.lookup k ((k0, v) :: l) = List.lookup k l := by
  have hb : (k == k0) = false := beq_eq_false_iff_ne.mpr h
  simp [List.lookup_cons, hb]

theorem lookup_eq_none_iff {β : Type _} (k : String) :
    ∀ l : List (String × β), List.lookup k l = Option.none ↔ ∀ p ∈ l, p.1 ≠ k
  | [] => by simp
  | (k0, v0) :: rest => by
    by_cases hk : k = k0
    · subst hk
      simp [lookup_cons_self]
    · rw [lookup_cons_ne hk, lookup_eq_none_iff k rest]
      constructor
      · intro h p hp
        rcases List.mem_cons.mp hp with rfl | hp'
        · exact fun hc => hk hc.symm
        · exact h p hp'
      · intro h p hp
        exact h p (List.mem_cons_of_mem _ hp)

theorem lookup_append_some {β : Type _} {k : String} {v : β} :
    ∀ {l1 : List (String × β)} (l2 : List (String × β)),
      List.lookup k l1 = some v → List.lookup k (l1 ++ l2) = some v
  | [], _, h => by simp at h
  | (k0, v0) :: rest, l2, h => by
    by_cases hk : k = k0
    · subst hk
      rw [lookup_cons_self] at h
      simpa [lookup_cons_self] using h
    · rw [lookup_cons_ne hk] at h
      rw [List.cons_append, lookup_cons_ne hk]
      exact lookup_append_some l2 h

theorem lookup_append_none {β : Type _} {k : String} :
    ∀ {l1 : List (String × β)} (l2 : List (String × β)),
      List.lookup k l1 = Option.none → List.lookup k (l1 ++ l2) = List.lookup k l2
  | [], _, _ => by simp
  | (k0, v0) :: rest, l2, h => by
    by_cases hk : k = k0
    · subst hk
      rw [lookup_cons_self] at h
      exact absurd h (by simp)
    · rw [lookup_cons_ne hk] at h
      rw [List.cons_append, lookup_cons_ne hk]
      exact lookup_append_none l2 h

theorem lookup_of_mem_nodup {β : Type _} {k : String} {v : β} :
    ∀ {l : List (String × β)}, (l.map Prod.fst).Nodup → (k, v) ∈ l →
      List.lookup k l = some v
  | [], _, hm => by simp at hm
  | (k0, v0) :: rest, hnd, hm => by
    have hnd2 : (k0 :: rest.map Prod.fst).Nodup := by
      rw [List.map_cons] at hnd
      exact hnd
    have h1 : k0 ∉ rest.map Prod.fst := (List.nodup_cons.mp hnd2).1
    have h2 : (rest.map Prod.fst).Nodup := (List.nodup_cons.mp hnd2).2
    rcases List.mem_cons.mp hm with heq | hmem
    · cases heq
      exact lookup_cons_self
    · have hk : k ≠ k0 := by
        rintro rfl
        exact h1 (List.mem_map.mpr ⟨(k, v), hmem, rfl⟩)
      rw [lookup_cons_ne hk]
      exact lookup_of_mem_nodup h2 hmem

theorem lookup_isSome_of_mem {β : Type _} {l : List (String × β)} {p : String × β}
    (hm : p ∈ l) : (List.lookup p.1 l).isSome := by
  cases h : List.lookup p.1 l
  · exact absurd rfl ((lookup_eq_none_iff p.1 l).mp h p hm)
  · rfl


theorem compareField_label {e1 e2 : Event} {k l : String} {x : String × PyVal × PyVal}
    (h : compareField e1 e2 k l = some x) : x.1 = l := by
  simp only [compareField] at h
  split at h <;> split at h <;>
    first
      | (cases Option.some.inj h; rfl)
      | exact absurd h (by simp)

theorem compareField_none_of_eq (e1 e2 : Event) (k l : String)
    (h : dictGet e1 k = dictGet e2 k) : compareField e1 e2 k l = Option.none := by
  simp [compareField, h]

theorem lookup_filterMap_notmem {β : Type _} (g : String × String → Option (String × β))
    (hg : ∀ p x, g p = some x → x.1 = p.2) {label : String} :
    ∀ L : List (String × String), label ∉ L.map Prod.snd →
      List.lookup label (L.filterMap g) = Option.none := by
  intro L
  induction L with
  | nil => simp
  | cons p rest ih =>
    intro hnm
    rw [List.map_cons] at hnm
    have hl : p.2 ≠ label := fun hc => hnm (hc ▸ List.mem_cons_self _ _)
    have hrest : label ∉ rest.map Prod.snd := fun hc => hnm (List.mem_cons_of_mem _ hc)
    rw [List.filterMap_cons]
    cases hgp : g p with
    | none => exact ih hrest
    | some x =>
      have hx : x.1 = p.2 := hg p x hgp
      obtain ⟨xl, xv⟩ := x
      rw [lookup_cons_ne (by simp at hx; rw [hx]; exact fun hc => hl hc.symm)]
      exact ih hrest

theorem lookup_filterMap_labeled {β : Type _} (g : String × String → Option (String × β))
    (hg : ∀ p x, g p = some x → x.1 = p.2) (key label : String) :
    ∀ L : List (String × String), (L.map Prod.snd).Nodup → (key, label) ∈ L →
      List.lookup label (L.filterMap g) = (g (key, label)).map Prod.snd := by
  intro L
  induction L with
  | nil => intro _ hm; simp at hm
  | cons p rest ih =>
    intro hnd hm
    rw [List.map_cons] at hnd
    have h1 : p.2 ∉ rest.map Prod.snd := (List.nodup_cons.mp hnd).1
    have h2 : (rest.map Prod.snd).Nodup := (List.nodup_cons.mp hnd).2
    rw [List.filterMap_cons]
    rcases List.mem_cons.mp hm with heq | hmem
    · have hp : p = (key, label) := heq.symm
      subst hp
      cases hgp : g (key, label) with
      | none =>
        rw [lookup_filterMap_notmem g hg rest h1]
        simp
      | some x =>
        have hx : x.1 = label := hg (key, label) x hgp
        obtain ⟨xl, xv⟩ := x
        simp at hx
        subst hx
        simp [lookup_cons_self]
    · have hl : p.2 ≠ label := by
        rintro rfl
        exact h1 (List.mem_map.mpr ⟨(key, p.2), hmem, rfl⟩)
      cases hgp : g p with
      | none => exact ih h2 hmem
      | some x =>
        have hx : x.1 = p.2 := hg p x hgp
        obtain ⟨xl, xv⟩ := x
        simp at hx
        rw [lookup_cons_ne (by rw [hx]; exact fun hc => hl hc.symm)]
        exact ih h2 hmem

theorem countP_filterMap_notmem {β : Type _} (g : String × String → Option (String × β))
    (hg : ∀ p x, g p = some x → x.1 = p.2) {label : String} :
    ∀ L : List (String × String), label ∉ L.map Prod.snd →
      (L.filterMap g).countP (fun x => x.1 == label) = 0 := by
  intro L
  induction L with
  | nil => simp
  | cons p rest ih =>
    intro hnm
    rw [List.map_cons] at hnm
    have hl : p.2 ≠ label := fun hc => hnm (hc ▸ List.mem_cons_self _ _)
    have hrest : label ∉ rest.map Prod.snd := fun hc => hnm (List.mem_cons_of_mem _ hc)
    rw [List.filterMap_cons]
    cases hgp : g p with
    | none => exact ih hrest
    | some x =>
      have hx : x.1 = p.2 := hg p x hgp
      rw [List.countP_cons, ih hrest]
      have hb : (x.1 == label) = false := by
        rw [hx]
        exact beq_eq_false_iff_ne.mpr hl
      simp [hb]

theorem countP_filterMap_labeled {β : Type _} (g : String × String → Option (String × β))
    (hg : ∀ p x, g p = some x → x.1 = p.2) (key label : String) :
    ∀ L : List (String × String), (L.map Prod.snd).Nodup → (key, label) ∈ L →
      (L.filterMap g).countP (fun x => x.1 == label)
        = if (g (key, label)).isSome then 1 else 0 := by
  intro L
  induction L with
  | nil => intro _ hm; simp at hm
  | cons p rest ih =>
    intro hnd hm
    rw [List.map_cons] at hnd
    have h1 : p.2 ∉ rest.map Prod.snd := (List.nodup_cons.mp hnd).1
    have h2 : (rest.map Prod.snd).Nodup := (List.nodup_cons.mp hnd).2
    rw [List.filterMap_cons]
    rcases List.mem_cons.mp hm with heq | hmem
    · have hp : p = (key, label) := heq.symm
      subst hp
      cases hgp : g (key, label) with
      | none =>
        rw [countP_filterMap_notmem g hg rest h1]
        simp
      | some x =>
        have hx : x.1 = label := hg (key, label) x hgp
        rw [List.countP_cons, countP_filterMap_notmem g hg rest h1]
        simp [hx]
    · have hl : p.2 ≠ label := by
        rintro rfl
        exact h1 (List.mem_map.mpr ⟨(key, p.2), hmem, rfl⟩)
      cases hgp : g p with
      | none => exact ih h2 hmem
      | some x =>
        have hx : x.1 = p.2 := hg p x hgp
        rw [List.countP_cons, ih h2 hmem]
        have hb : (x.1 == label) = false := by
          rw [hx]
          exact beq_eq_false_iff_ne.mpr hl
        simp [hb]

/-- `lookup` specialization of the labeled-filterMap lemma to
`compare_events`: the diff entry under a tracked label is exactly what
`compareField` emits for that label's key. -/
theorem compareEvents_lookup (e1 e2 : Event) (key label : String)
    (hm : (key, label) ∈ fieldsToCheck) :
    List.lookup label (compareEvents e1 e2)
      = (compareField e1 e2 key label).map Prod.snd :=
  lookup_filterMap_labeled _ (fun _ _ h => compareField_label h) key label
    fieldsToCheck (by decide) hm

/-- `countP` specialization: a tracked label occurs in the diff exactly
once when `compareField` emits for it, never otherwise. -/
theorem compareEvents_countP (e1 e2 : Event) (key label : String)
    (hm : (key, label) ∈ fieldsToCheck) :
    (compareEvents e1 e2).countP (fun x => x.1 == label)
      = if (compareField e1 e2 key label).isSome then 1 else 0 :=
  countP_filterMap_labeled _ (fun _ _ h => compareField_label h) key label
    fieldsToCheck (by decide) hm

/-- Equality of two events on the raw values of all nine tracked keys. -/
def trackedEqB (e1 e2 : Event) : Bool :=
  fieldsToCheck.all (fun p => dictGet e1 p.1 == dictGet e2 p.1)

theorem compareEvents_nil_of_trackedEq {e1 e2 : Event} (h : trackedEqB e1 e2 = true) :
    compareEvents e1 e2 = [] := by
  rw [compareEvents, List.filterMap_eq_nil_iff]
  intro p hp
  have h' := List.all_eq_true.mp h p hp
  exact compareField_none_of_eq e1 e2 p.1 p.2 (by simpa using h')

theorem trackedEqB_refl (e : Event) : trackedEqB e e = true := by
  simp [trackedEqB, List.all_eq_true]

/-! ## The claims -/

/-- A concrete event record used in counterexample/witness statements. -/
def evA : Event :=
  [("id", .int 101), ("name", .str "Convoy A"), ("start_at", .str "2025-06-01 18:00:00")]

/-- C1: the claim says a cycle whose fetch failed (empty new snapshot,
non-empty old snapshot) must produce no `Removed` records, no
notifications and no save.  The code has no such guard: at old snapshot
`{"1": A}` and new snapshot `{}` it emits a `removed` change for id "1",
sends its notification, and overwrites the durable snapshot with `{}` —
the spec itself (§9) flags this as a bug to fix, so the claim is right
and the code is wrong. -/
theorem failed_fetch_cycle_emits_removal_and_saves :
    pollCycle [("1", evA)] [] = ([("removed", evA, Option.none)], some []) := by
  rfl

/-- C6: `detect_changes` lists the `created`/`updated` records first, one
per entry of `new_db` in `new_db`'s iteration order, followed by the
`removed` records, one per entry of `old_db` in `old_db`'s iteration
order. -/
theorem detect_changes_ordered_created_updated_then_removed
    (oldDb newDb : Snapshot) :
    detectChanges oldDb newDb
      = newDb.filterMap (createdOrUpdated oldDb) ++ oldDb.filterMap (removedChange newDb) :=
  detectChanges_decomp oldDb newDb

/-- C4: when the two snapshots have the same ids and, for every id, the
stored events agree on the raw values of all nine tracked fields,
`detect_changes` returns the empty list. -/
theorem detect_changes_nil_on_tracked_equal (oldDb newDb : Snapshot)
    (hOld : oldDb.all (fun p => (List.lookup p.1 newDb).isSome) = true)
    (hNew : newDb.all (fun p =>
        match List.lookup p.1 oldDb with
        | some e => trackedEqB e p.2
        | Option.none => false) = true) :
    detectChanges oldDb newDb = [] := by
  rw [detectChanges_decomp]
  have h1 : newDb.filterMap (createdOrUpdated oldDb) = [] := by
    rw [List.filterMap_eq_nil_iff]
    intro p hp
    have hall := List.all_eq_true.mp hNew p hp
    cases hl : List.lookup p.1 oldDb with
    | none => rw [hl] at hall; exact absurd hall (by simp)
    | some e =>
      rw [hl] at hall
      unfold createdOrUpdated
      rw [hl]
      simp [compareEvents_nil_of_trackedEq hall]
  have h2 : oldDb.filterMap (removedChange newDb) = [] := by
    rw [List.filterMap_eq_nil_iff]
    intro p hp
    have hs := List.all_eq_true.mp hOld p hp
    simp only [removedChange]
    rw [if_pos (by simpa using hs)]
  rw [h1, h2]
  simp

/-- C4 witness: two concrete one-event snapshots equal on every tracked
field (they differ in the untracked `url` field) produce no changes. -/
theorem detect_changes_nil_on_tracked_equal_witness :
    detectChanges [("7", [("id", .int 7), ("name", .str "W"), ("url", .str "/a")])]
        [("7", [("id", .int 7), ("name", .str "W"), ("url", .str "/b")])] = [] :=
  detect_changes_nil_on_tracked_equal _ _ (by decide) (by decide)

/-- C5: inserting one event under a fresh id into a snapshot (with
duplicate-free ids, as every Python dict has) makes `detect_changes`
return exactly the one `created` record for the inserted event — so in
particular exactly one `Created` for that id and no other record
referencing it. -/
theorem detect_changes_insert_fresh_id_singleton (oldDb : Snapshot) (k : String) (e : Event)
    (hnd : (oldDb.map Prod.fst).Nodup) (hk : List.lookup k oldDb = Option.none) :
    detectChanges oldDb (oldDb ++ [(k, e)]) = [("created", e, Option.none)] := by
  rw [detectChanges_decomp]
  have h1 : (oldDb ++ [(k, e)]).filterMap (createdOrUpdated oldDb)
      = [("created", e, Option.none)] := by
    rw [List.filterMap_append]
    have ha : oldDb.filterMap (createdOrUpdated oldDb) = [] := by
      rw [List.filterMap_eq_nil_iff]
      intro p hp
      obtain ⟨pk, pe⟩ := p
      have hl : List.lookup pk oldDb = some pe := lookup_of_mem_nodup hnd hp
      unfold createdOrUpdated
      rw [hl]
      simp [compareEvents_nil_of_trackedEq (trackedEqB_refl pe)]
    have hb : ([(k, e)] : Snapshot).filterMap (createdOrUpdated oldDb)
        = [("created", e, Option.none)] := by
      simp [List.filterMap_cons, createdOrUpdated, hk]
    rw [ha, hb]
    simp
  have h2 : oldDb.filterMap (removedChange (oldDb ++ [(k, e)])) = [] := by
    rw [List.filterMap_eq_nil_iff]
    intro p hp
    obtain ⟨v, hv⟩ := Option.isSome_iff_exists.mp (lookup_isSome_of_mem hp)
    have hs : List.lookup p.1 (oldDb ++ [(k, e)]) = some v := lookup_append_some _ hv
    simp [removedChange, hs]
  rw [h1, h2]
  simp

/-- C5 witness: adding id "2" to the one-event snapshot for id "1"
yields exactly one `created` record. -/
theorem detect_changes_insert_fresh_id_singleton_witness :
    detectChanges [("1", evA)] ([("1", evA)] ++ [("2", [("id", .int 2)])])
      = [("created", [("id", .int 2)], Option.none)] :=
  detect_changes_insert_fresh_id_singleton _ _ _ (by decide) (by decide)

/-- `compareField` at the `description` key: the emitted entry carries
the raw old and new values. -/
theorem compareField_description (e1 e2 : Event) :
    compareField e1 e2 "description" "Description"
      = if dictGet e1 "description" = dictGet e2 "description" then Option.none
        else some ("Description", dictGet e1 "description", dictGet e2 "description") := by
  simp only [compareField, normalizeVal]
  norm_num
  split
  · simp_all
  · simp_all

/-- Concrete events differing only in their description. -/
def evD1 : Event := [("id", .int 1), ("name", .str "E"), ("description", .str "old text")]

/-- `evD1` with a different description. -/
def evD2 : Event := [("id", .int 1), ("name", .str "E"), ("description", .str "new text")]

/-- C2 counterexample: for two events whose descriptions differ, the
mapping returned by `compare_events` maps `"Description"` to the raw
`(old, new)` description texts — not to a generic "content changed"
marker — so the claim that the returned diff payload does not contain
the old and new text is false on the code. -/
theorem description_diff_contains_texts :
    List.lookup "Description" (compareEvents evD1 evD2)
      = some (.str "old text", .str "new text") := by
  rfl

/-- C2 (amended): `compare_events` records the raw old/new description
values in the returned diff mapping under the `Description` label (while
also logging them to stdout); the generic `Description changed` marker is
produced only later by `build_embed` when rendering an updated-event
message, which omits the old/new text. -/
theorem description_diff_payload_and_render (e1 e2 : Event)
    (h : dictGet e1 "description" ≠ dictGet e2 "description") :
    List.lookup "Description" (compareEvents e1 e2)
        = some (dictGet e1 "description", dictGet e2 "description") ∧
    ∀ o n : PyVal, diffLinesOf [("Description", o, n)] = ["📝 **Description changed**"] := by
  constructor
  · rw [compareEvents_lookup e1 e2 "description" "Description" (by decide),
      compareField_description, if_neg h]
    rfl
  · intro o n
    simp [diffLinesOf]

/-- C2 witness: the amended statement applied to the concrete events. -/
theorem description_diff_payload_and_render_witness :
    List.lookup "Description" (compareEvents evD1 evD2)
        = some (dictGet evD1 "description", dictGet evD2 "description") ∧
    ∀ o n : PyVal, diffLinesOf [("Description", o, n)] = ["📝 **Description changed**"] :=
  description_diff_payload_and_render evD1 evD2 (by decide)

/-- C3 counterexample: a response body that is valid JSON but not an
object — here the empty JSON array — reaches the debug
`list(data.keys())` call, which raises `AttributeError`; `fetch_events`
does not return an empty mapping there, so the claim's
"valid JSON but not an object of the expected shape" case is false. -/
theorem fetch_events_raises_on_json_array_body :
    fetchEvents (.resp 200 (some (.list []))) = .error .attributeError := by
  rfl

/-- C3 (amended): for a transport error, a non-success status, or a body
that is not valid JSON, `fetch_events` returns the empty mapping without
raising; the guarantee does not extend to bodies that are valid JSON of
an unexpected shape. -/
theorem fetch_events_empty_on_transport_status_or_parse_failure (r : HttpResult)
    (h : r = .exn ∨ (∃ s b, r = .resp s b ∧ s ≠ 200) ∨ ∃ s, r = .resp s Option.none) :
    fetchEvents r = .ok [] := by
  rcases h with rfl | ⟨s, b, rfl, hs⟩ | ⟨s, rfl⟩
  · rfl
  · simp [fetchEvents, hs]
  · by_cases hs : s = 200
    · subst hs
      rfl
    · simp [fetchEvents, hs]

/-- C3 witness: the amended statement applied to a request exception. -/
theorem fetch_events_empty_on_transport_witness : fetchEvents .exn = .ok [] :=
  fetch_events_empty_on_transport_status_or_parse_failure .exn (Or.inl rfl)

theorem except_bind_error {ε α β : Type _} (e : ε) (f : α → Except ε β) :
    (Except.error e : Except ε α) >>= f = Except.error e := rfl

/-- C9: an event record without the `start_at` key makes `build_embed`
raise `KeyError("start_at")` (line 84 indexes it unconditionally), even
though a missing `meetup_at` is rendered as `"Not specified"` — so
notification is not total over records with optional timestamp fields. -/
theorem build_embed_requires_start_at :
    (∀ (e : Event) (ct : String) (d : Option (List (String × PyVal × PyVal))),
       List.lookup "start_at" e = Option.none →
       buildEmbed e ct d = .error (.keyError "start_at")) ∧
    (∀ e : Event, List.lookup "meetup_at" e = Option.none →
       meetupTimeOf e = .str "Not specified") := by
  constructor
  · intro e ct d h
    simp [buildEmbed, evIndex, h, except_bind_error]
  · intro e h
    simp [meetupTimeOf, dictGet, h, pyTruthy]

/-- C9 witness: a record with neither timestamp key. -/
theorem build_embed_requires_start_at_witness :
    buildEmbed [("name", .str "X")] "created" Option.none = .error (.keyError "start_at") ∧
    meetupTimeOf [("name", .str "X")] = .str "Not specified" :=
  ⟨build_embed_requires_start_at.1 [("name", .str "X")] "created" Option.none (by decide),
   build_embed_requires_start_at.2 [("name", .str "X")] (by decide)⟩

theorem compareField_timestamp (e1 e2 : Event) (key label : String)
    (hkey : key = "start_at" ∨ key = "meetup_at")
    (r1 r2 : String)
    (h1 : dictGet e1 key = .str r1) (h2 : dictGet e2 key = .str r2)
    (hr1 : r1 ≠ "") (hr2 : r2 ≠ "") :
    compareField e1 e2 key label
      = if discordTimestamp r1 "F" = discordTimestamp r2 "F" then Option.none
        else some (label, .str (discordTimestamp r1 "F"), .str (discordTimestamp r2 "F")) := by
  rcases hkey with rfl | rfl <;>
  · simp only [compareField, normalizeVal, h1, h2]
    norm_num
    simp [pyTruthy, hr1, hr2, pyDiscordTs]

theorem mem_natDecChars_digit {c : Char} {n : Nat} (h : c ∈ natDecChars n) :
    ∃ d, d < 10 ∧ c = Nat.digitChar d := by
  unfold natDecChars at h
  split at h
  · refine ⟨0, by norm_num, ?_⟩
    simpa using h
  · rw [natDigitsRev_eq_digits n n le_rfl] at h
    rw [List.mem_reverse, List.mem_map] at h
    obtain ⟨d, hd, rfl⟩ := h
    exact ⟨d, Nat.digits_lt_base (by norm_num) hd, rfl⟩

theorem digitChar_inj_lt : ∀ d, d < 10 → ∀ e, e < 10 → Nat.digitChar d = Nat.digitChar e → d = e := by
  decide

theorem map_digitChar_inj :
    ∀ ds es : List Nat, (∀ d ∈ ds, d < 10) → (∀ e ∈ es, e < 10) →
      ds.map Nat.digitChar = es.map Nat.digitChar → ds = es
  | [], [], _, _, _ => rfl
  | [], _ :: _, _, _, h => by simp at h
  | _ :: _, [], _, _, h => by simp at h
  | d :: ds, e :: es, hds, hes, h => by
    rw [List.map_cons, List.map_cons] at h
    injection h with h1 h2
    have hde : d = e :=
      digitChar_inj_lt d (hds d (List.mem_cons_self _ _)) e (hes e (List.mem_cons_self _ _)) h1
    subst hde
    rw [map_digitChar_inj ds es (fun x hx => hds x (List.mem_cons_of_mem _ hx))
      (fun x hx => hes x (List.mem_cons_of_mem _ hx)) h2]

theorem natDecChars_inj {m n : Nat} (h : natDecChars m = natDecChars n) : m = n := by
  by_cases hm : m = 0 <;> by_cases hn : n = 0
  · omega
  · exfalso
    unfold natDecChars at h
    rw [if_pos hm, if_neg hn, natDigitsRev_eq_digits n n le_rfl] at h
    have h' : (List.map Nat.digitChar (Nat.digits 10 n)) = ['0'] := by
      have := congrArg List.reverse h
      simpa using this.symm
    obtain ⟨d, hd1, hd2⟩ : ∃ d, Nat.digits 10 n = [d] ∧ Nat.digitChar d = '0' := by
      cases hd : Nat.digits 10 n with
      | nil => rw [hd] at h'; simp at h'
      | cons a rest =>
        rw [hd] at h'
        cases rest with
        | nil => exact ⟨a, rfl, by simpa using h'⟩
        | cons b r2 => simp at h'
    have hd10 : d < 10 := Nat.digits_lt_base (by norm_num) (by rw [hd1]; exact List.mem_cons_self _ _)
    have : d = 0 := by
      have : ∀ d, d < 10 → Nat.digitChar d = '0' → d = 0 := by decide
      exact this d hd10 hd2
    subst this
    have := Nat.ofDigits_digits 10 n
    rw [hd1] at this
    simp [Nat.ofDigits] at this
    omega
  · exfalso
    unfold natDecChars at h
    rw [if_pos hn, if_neg hm, natDigitsRev_eq_digits m m le_rfl] at h
    have h' : (List.map Nat.digitChar (Nat.digits 10 m)) = ['0'] := by
      have := congrArg List.reverse h
      simpa using this
    obtain ⟨d, hd1, hd2⟩ : ∃ d, Nat.digits 10 m = [d] ∧ Nat.digitChar d = '0' := by
      cases hd : Nat.digits 10 m with
      | nil => rw [hd] at h'; simp at h'
      | cons a rest =>
        rw [hd] at h'
        cases rest with
        | nil => exact ⟨a, rfl, by simpa using h'⟩
        | cons b r2 => simp at h'
    have hd10 : d < 10 := Nat.digits_lt_base (by norm_num) (by rw [hd1]; exact List.mem_cons_self _ _)
    have : d = 0 := by
      have : ∀ d, d < 10 → Nat.digitChar d = '0' → d = 0 := by decide
      exact this d hd10 hd2
    subst this
    have := Nat.ofDigits_digits 10 m
    rw [hd1] at this
    simp [Nat.ofDigits] at this
    omega
  · unfold natDecChars at h
    rw [if_neg hm, if_neg hn, natDigitsRev_eq_digits m m le_rfl,
      natDigitsRev_eq_digits n n le_rfl] at h
    have h' := congrArg List.reverse h
    simp only [List.reverse_reverse] at h'
    have := map_digitChar_inj _ _
      (fun d hd => Nat.digits_lt_base (by norm_num) hd)
      (fun d hd => Nat.digits_lt_base (by norm_num) hd) h'
    calc m = Nat.ofDigits 10 (Nat.digits 10 m) := (Nat.ofDigits_digits 10 m).symm
    _ = Nat.ofDigits 10 (Nat.digits 10 n) := by rw [this]
    _ = n := Nat.ofDigits_digits 10 n

theorem pyIntStr_inj {i j : Int} (h : pyIntStr i = pyIntStr j) : i = j := by
  have hmk : ∀ a b : List Char, String.mk a = String.mk b → a = b := by
    intro a b hab
    injection hab
  unfold pyIntStr at h
  by_cases hi : i < 0 <;> by_cases hj : j < 0
  · rw [if_pos hi, if_pos hj] at h
    have := hmk _ _ h
    injection this with _ h2
    have := natDecChars_inj h2
    omega
  · rw [if_pos hi, if_neg hj] at h
    exfalso
    have hl := hmk _ _ h
    have hmem : '-' ∈ natDecChars j.natAbs := by
      rw [← hl]
      exact List.mem_cons_self _ _
    obtain ⟨d, hd, hc⟩ := mem_natDecChars_digit hmem
    have : ∀ d, d < 10 → Nat.digitChar d ≠ '-' := by decide
    exact this d hd hc.symm
  · rw [if_neg hi, if_pos hj] at h
    exfalso
    have hl := hmk _ _ h
    have hmem : '-' ∈ natDecChars i.natAbs := by
      rw [hl]
      exact List.mem_cons_self _ _
    obtain ⟨d, hd, hc⟩ := mem_natDecChars_digit hmem
    have : ∀ d, d < 10 → Nat.digitChar d ≠ '-' := by decide
    exact this d hd hc.symm
  · rw [if_neg hi, if_neg hj] at h
    have := natDecChars_inj (hmk _ _ h)
    omega

theorem render_inj {a b : Int}
    (h : ("<t:" ++ pyIntStr a ++ ":" ++ "F" ++ ">" : String)
       = "<t:" ++ pyIntStr b ++ ":" ++ "F" ++ ">") : a = b := by
  have hd := congrArg String.data h
  simp only [String.data_append, List.append_assoc] at hd
  have h1 := List.append_cancel_left hd
  have h2 := List.append_cancel_right h1
  apply pyIntStr_inj
  cases hpa : pyIntStr a with
  | mk da =>
  cases hpb : pyIntStr b with
  | mk db =>
  rw [hpa, hpb] at h2
  simp at h2
  rw [h2]

theorem unixTimestamp_ne_of_second_ne {t1 t2 : YmdHms}
    (hy : t1.year = t2.year) (hm : t1.month = t2.month) (hd : t1.day = t2.day)
    (hh : t1.hour = t2.hour) (hmi : t1.minute = t2.minute) (hs : t1.second ≠ t2.second) :
    unixTimestamp t1 ≠ unixTimestamp t2 := by
  unfold unixTimestamp
  rw [hy, hm, hd, hh, hmi]
  intro hc
  have hb : t1.second ≤ 61 ∨ True := Or.inr trivial
  omega

theorem discordTimestamp_render {r : String} {t : YmdHms} (h : pyStrptime r = some t) :
    discordTimestamp r "F" = "<t:" ++ pyIntStr (unixTimestamp t) ++ ":" ++ "F" ++ ">" := by
  simp [discordTimestamp, h]

/-- C7: for the `Start Time` and `Meetup Time` fields, `compare_events`
compares rendered display forms: two distinct raw timestamp strings that
render to the same display string produce no diff entry for the field,
and two raw timestamps that parse with equal date/hour/minute but
different seconds produce exactly one diff entry for it. -/
theorem timestamp_fields_compare_on_rendered_form
    (key label : String)
    (hf : (key, label) ∈ ([("start_at", "Start Time"), ("meetup_at", "Meetup Time")]
      : List (String × String)))
    (e1 e2 : Event) (r1 r2 : String)
    (h1 : dictGet e1 key = .str r1) (h2 : dictGet e2 key = .str r2)
    (hr1 : r1 ≠ "") (hr2 : r2 ≠ "") :
    (discordTimestamp r1 "F" = discordTimestamp r2 "F" →
       List.lookup label (compareEvents e1 e2) = Option.none) ∧
    (∀ t1 t2 : YmdHms, pyStrptime r1 = some t1 → pyStrptime r2 = some t2 →
       t1.year = t2.year → t1.month = t2.month → t1.day = t2.day →
       t1.hour = t2.hour → t1.minute = t2.minute → t1.second ≠ t2.second →
       (compareEvents e1 e2).countP (fun x => x.1 == label) = 1) := by
  have hkey : key = "start_at" ∨ key = "meetup_at" := by
    rcases List.mem_cons.mp hf with heq | hf2
    · left; exact congrArg Prod.fst heq
    · rcases List.mem_cons.mp hf2 with heq | hf3
      · right; exact congrArg Prod.fst heq
      · simp at hf3
  have hmem : (key, label) ∈ fieldsToCheck := by
    rcases List.mem_cons.mp hf with heq | hf2
    · rw [heq]; decide
    · rcases List.mem_cons.mp hf2 with heq | hf3
      · rw [heq]; decide
      · simp at hf3
  have hcf := compareField_timestamp e1 e2 key label hkey r1 r2 h1 h2 hr1 hr2
  constructor
  · intro heq
    rw [compareEvents_lookup e1 e2 key label hmem, hcf, if_pos heq]
    rfl
  · intro t1 t2 hp1 hp2 hy hm hd hh hmi hs
    have hne : discordTimestamp r1 "F" ≠ discordTimestamp r2 "F" := by
      rw [discordTimestamp_render hp1, discordTimestamp_render hp2]
      intro hc
      exact unixTimestamp_ne_of_second_ne hy hm hd hh hmi hs (render_inj hc)
    rw [compareEvents_countP e1 e2 key label hmem, hcf, if_neg hne]
    simp

/-- C7 witness: `"2025-01-02 03:04:05"` and `"2025-1-2 03:04:05"`
(distinct raw strings, same rendering) produce no `Start Time` entry,
while a one-second difference produces exactly one. -/
theorem timestamp_fields_witness :
    List.lookup "Start Time"
        (compareEvents [("start_at", .str "2025-01-02 03:04:05")]
          [("start_at", .str "2025-1-2 03:04:05")]) = Option.none ∧
    (compareEvents [("start_at", .str "2025-01-02 03:04:05")]
        [("start_at", .str "2025-01-02 03:04:06")]).countP
      (fun x => x.1 == "Start Time") = 1 :=
  ⟨(timestamp_fields_compare_on_rendered_form "start_at" "Start Time" (by decide)
      [("start_at", .str "2025-01-02 03:04:05")] [("start_at", .str "2025-1-2 03:04:05")]
      "2025-01-02 03:04:05" "2025-1-2 03:04:05" rfl rfl (by decide) (by decide)).1 (by decide),
   (timestamp_fields_compare_on_rendered_form "start_at" "Start Time" (by decide)
      [("start_at", .str "2025-01-02 03:04:05")] [("start_at", .str "2025-01-02 03:04:06")]
      "2025-01-02 03:04:05" "2025-01-02 03:04:06" rfl rfl (by decide) (by decide)).2
     ⟨2025, 1, 2, 3, 4, 5⟩ ⟨2025, 1, 2, 3, 4, 6⟩ (by decide) (by decide)
     rfl rfl rfl rfl rfl (by decide)⟩

/-- Whether a change record references event id `k`: its carried event's
`"id"` field, rendered with `str` as `fetch_events` does for snapshot
keys, equals `k`. -/
def refsId (k : String) (c : Change) : Bool :=
  match List.lookup "id" c.2.1 with
  | some v => pyStr v == k
  | Option.none => false

/-- A snapshot is well-keyed when every entry's key is `str(event["id"])`
of its event, as `fetch_events` builds snapshots and `save_db`/`load_db`
preserve them. -/
def wellKeyed (db : Snapshot) : Bool :=
  db.all (fun p =>
    match List.lookup "id" p.2 with
    | some v => pyStr v == p.1
    | Option.none => false)

theorem wellKeyed_spec {db : Snapshot} {p : String × Event}
    (h : wellKeyed db = true) (hp : p ∈ db) :
    ∃ v, List.lookup "id" p.2 = some v ∧ pyStr v = p.1 := by
  have hall := List.all_eq_true.mp h p hp
  cases hl : List.lookup "id" p.2 with
  | none => rw [hl] at hall; exact absurd hall (by simp)
  | some v => rw [hl] at hall; exact ⟨v, rfl, by simpa using hall⟩

theorem refsId_eq {k : String} {c : Change} {p : String × Event}
    (hc : c.2.1 = p.2) {v : PyVal}
    (hv : List.lookup "id" p.2 = some v) (hpv : pyStr v = p.1) :
    refsId k c = (p.1 == k) := by
  unfold refsId
  rw [hc, hv]
  dsimp only
  rw [hpv]

theorem createdOrUpdated_spec {oldDb : Snapshot} {p : String × Event} {c : Change}
    (h : createdOrUpdated oldDb p = some c) :
    c.2.1 = p.2 ∧
      ((c.1 = "created" ∧ List.lookup p.1 oldDb = Option.none) ∨
       (c.1 = "updated" ∧ (List.lookup p.1 oldDb).isSome)) := by
  unfold createdOrUpdated at h
  cases hl : List.lookup p.1 oldDb with
  | none =>
    rw [hl] at h
    cases Option.some.inj h
    exact ⟨rfl, Or.inl ⟨rfl, rfl⟩⟩
  | some e =>
    rw [hl] at h
    simp only at h
    split at h
    · exact absurd h (by simp)
    · cases Option.some.inj h
      exact ⟨rfl, Or.inr ⟨rfl, by simp⟩⟩

theorem removedChange_spec {newDb : Snapshot} {p : String × Event} {c : Change}
    (h : removedChange newDb p = some c) :
    c = ("removed", p.2, Option.none) ∧ List.lookup p.1 newDb = Option.none := by
  unfold removedChange at h
  split at h
  · exact absurd h (by simp)
  · next hcond =>
    cases Option.some.inj h
    refine ⟨rfl, ?_⟩
    cases hl : List.lookup p.1 newDb with
    | none => rfl
    | some v => rw [hl] at hcond; simp at hcond

theorem countP_filterMap_le_mem {α β : Type _} (f : α → Option β) (q : β → Bool)
    (pa : α → Bool) :
    ∀ xs : List α, (∀ a ∈ xs, ∀ b, f a = some b → q b = true → pa a = true) →
      (xs.filterMap f).countP q ≤ xs.countP pa := by
  intro xs
  induction xs with
  | nil => simp
  | cons a xs ih =>
    intro hfa
    rw [List.filterMap_cons, List.countP_cons]
    have hrest := ih (fun x hx b hb hq => hfa x (List.mem_cons_of_mem _ hx) b hb hq)
    cases hfb : f a with
    | none => exact Nat.le_trans hrest (Nat.le_add_right _ _)
    | some b =>
      rw [List.countP_cons]
      by_cases hq : q b = true
      · have hpa := hfa a (List.mem_cons_self _ _) b hfb hq
        simp only [hq, hpa]
        omega
      · have hqf : (q b : Bool) = false := by
          cases hqb : q b
          · rfl
          · exact absurd hqb hq
        rw [hqf, if_neg Bool.false_ne_true]
        omega

theorem countP_key_le_one {β : Type _} (k : String) :
    ∀ l : List (String × β), (l.map Prod.fst).Nodup →
      l.countP (fun p => p.1 == k) ≤ 1 := by
  intro l
  induction l with
  | nil => simp
  | cons p rest ih =>
    intro hnd
    rw [List.map_cons] at hnd
    have h1 : p.1 ∉ rest.map Prod.fst := (List.nodup_cons.mp hnd).1
    have h2 : (rest.map Prod.fst).Nodup := (List.nodup_cons.mp hnd).2
    rw [List.countP_cons]
    by_cases hk : p.1 = k
    · have hz : rest.countP (fun q => q.1 == k) = 0 := by
        rw [List.countP_eq_zero]
        intro q hq hqk
        have : q.1 = k := by simpa using hqk
        exact h1 (by rw [hk]; rw [← this]; exact List.mem_map.mpr ⟨q, hq, rfl⟩)
      simp [hz, hk]
    · have hb : (p.1 == k) = false := beq_eq_false_iff_ne.mpr hk
      simpa [hb] using ih h2

/-- C8: over well-keyed snapshots (each entry's key is `str(event["id"])`,
as the bot builds them) with duplicate-free keys, every event id appears
in at most one record of `detect_changes`'s output, and the kind of any
record referencing an id is forced by where the id lives: in both
snapshots only `updated`, absent from the old one only `created`, absent
from the new one only `removed`. -/
theorem each_id_in_at_most_one_change
    (oldDb newDb : Snapshot) (k : String)
    (hndOld : (oldDb.map Prod.fst).Nodup) (hndNew : (newDb.map Prod.fst).Nodup)
    (hwkOld : wellKeyed oldDb = true) (hwkNew : wellKeyed newDb = true) :
    (detectChanges oldDb newDb).countP (refsId k) ≤ 1 ∧
    (∀ c ∈ detectChanges oldDb newDb, refsId k c = true →
      ((List.lookup k oldDb).isSome → (List.lookup k newDb).isSome → c.1 = "updated") ∧
      (List.lookup k oldDb = Option.none → c.1 = "created") ∧
      (List.lookup k newDb = Option.none → c.1 = "removed")) := by
  have hrefs1 : ∀ p ∈ newDb, ∀ c, createdOrUpdated oldDb p = some c →
      refsId k c = true → (fun q : String × Event => q.1 == k) p = true := by
    intro p hp c hc hr
    obtain ⟨v, hv, hpv⟩ := wellKeyed_spec hwkNew hp
    have hcp := (createdOrUpdated_spec hc).1
    rw [refsId_eq hcp hv hpv] at hr
    simpa using hr
  have hrefs2 : ∀ p ∈ oldDb, ∀ c, removedChange newDb p = some c →
      refsId k c = true → (fun q : String × Event => q.1 == k) p = true := by
    intro p hp c hc hr
    obtain ⟨v, hv, hpv⟩ := wellKeyed_spec hwkOld hp
    have hcp : c.2.1 = p.2 := by rw [(removedChange_spec hc).1]
    rw [refsId_eq hcp hv hpv] at hr
    simpa using hr
  constructor
  · rw [detectChanges_decomp, List.countP_append]
    by_cases hk : (List.lookup k newDb).isSome
    · have hc2 : (oldDb.filterMap (removedChange newDb)).countP (refsId k) = 0 := by
        rw [List.countP_eq_zero]
        intro c hc hr
        obtain ⟨p, hp, hfp⟩ := List.mem_filterMap.mp hc
        obtain ⟨hcr, hnone⟩ := removedChange_spec hfp
        obtain ⟨v, hv, hpv⟩ := wellKeyed_spec hwkOld hp
        have hcp : c.2.1 = p.2 := by rw [hcr]
        rw [refsId_eq hcp hv hpv] at hr
        have hpk : p.1 = k := by simpa using hr
        rw [hpk] at hnone
        rw [hnone] at hk
        simp at hk
      have hc1 := Nat.le_trans (countP_filterMap_le_mem _ _ _ newDb hrefs1)
        (countP_key_le_one k newDb hndNew)
      omega
    · have hknone : List.lookup k newDb = Option.none := Option.not_isSome_iff_eq_none.mp hk
      have hc1 : (newDb.filterMap (createdOrUpdated oldDb)).countP (refsId k) = 0 := by
        rw [List.countP_eq_zero]
        intro c hc hr
        obtain ⟨p, hp, hfp⟩ := List.mem_filterMap.mp hc
        obtain ⟨v, hv, hpv⟩ := wellKeyed_spec hwkNew hp
        have hcp := (createdOrUpdated_spec hfp).1
        rw [refsId_eq hcp hv hpv] at hr
        have hpk : p.1 = k := by simpa using hr
        have hks := lookup_isSome_of_mem hp
        rw [hpk, hknone] at hks
        simp at hks
      have hc2 := Nat.le_trans (countP_filterMap_le_mem _ _ _ oldDb hrefs2)
        (countP_key_le_one k oldDb hndOld)
      omega
  · intro c hc hr
    rw [detectChanges_decomp] at hc
    rcases List.mem_append.mp hc with hc1 | hc2
    · obtain ⟨p, hp, hfp⟩ := List.mem_filterMap.mp hc1
      obtain ⟨v, hv, hpv⟩ := wellKeyed_spec hwkNew hp
      obtain ⟨hcp, hkind⟩ := createdOrUpdated_spec hfp
      rw [refsId_eq hcp hv hpv] at hr
      have hpk : p.1 = k := by simpa using hr
      have hksome : (List.lookup k newDb).isSome := by
        have := lookup_isSome_of_mem hp
        rw [hpk] at this
        exact this
      refine ⟨?_, ?_, ?_⟩
      · intro hos _
        rcases hkind with ⟨_, hnone⟩ | ⟨hup, _⟩
        · rw [hpk] at hnone
          rw [hnone] at hos
          simp at hos
        · exact hup
      · intro honone
        rcases hkind with ⟨hcr, _⟩ | ⟨_, hsome⟩
        · exact hcr
        · rw [hpk] at hsome
          rw [honone] at hsome
          simp at hsome
      · intro hnnone
        rw [hnnone] at hksome
        simp at hksome
    · obtain ⟨p, hp, hfp⟩ := List.mem_filterMap.mp hc2
      obtain ⟨hcr, hnone⟩ := removedChange_spec hfp
      obtain ⟨v, hv, hpv⟩ := wellKeyed_spec hwkOld hp
      have hcp : c.2.1 = p.2 := by rw [hcr]
      rw [refsId_eq hcp hv hpv] at hr
      have hpk : p.1 = k := by simpa using hr
      have hosome : (List.lookup k oldDb).isSome := by
        have := lookup_isSome_of_mem hp
        rw [hpk] at this
        exact this
      refine ⟨?_, ?_, ?_⟩
      · intro _ hns
        rw [hpk] at hnone
        rw [hnone] at hns
        simp at hns
      · intro honone
        rw [honone] at hosome
        simp at hosome
      · intro _
        rw [hcr]

/-- C8 witness: a one-event old snapshot against an empty new snapshot. -/
theorem each_id_in_at_most_one_change_witness :
    (detectChanges [("101", evA)] []).countP (refsId "101") ≤ 1 ∧
    (∀ c ∈ detectChanges [("101", evA)] [], refsId "101" c = true →
      ((List.lookup "101" [("101", evA)]).isSome →
        (List.lookup "101" ([] : Snapshot)).isSome → c.1 = "updated") ∧
      (List.lookup "101" [("101", evA)] = Option.none → c.1 = "created") ∧
      (List.lookup "101" ([] : Snapshot) = Option.none → c.1 = "removed")) :=
  each_id_in_at_most_one_change [("101", evA)] [] "101"
    (by decide) (by decide) (by decide) (by decide)

theorem skipWs_cons_not_ws {c : Char} {cs : List Char} (h : isJsonWs c = false) :
    skipWs (c :: cs) = c :: cs := by
  simp [skipWs, h]

theorem skipWs_ws_prefix :
    ∀ ws cs : List Char, (∀ c ∈ ws, isJsonWs c = true) →
      skipWs (ws ++ cs) = skipWs cs
  | [], cs, _ => rfl
  | c :: ws, cs, h => by
    rw [List.cons_append, skipWs, if_pos (h c (List.mem_cons_self _ _))]
    exact skipWs_ws_prefix ws cs (fun x hx => h x (List.mem_cons_of_mem _ hx))

theorem nlIndent_ws (n : Nat) : ∀ c ∈ nlIndent n, isJsonWs c = true := by
  intro c hc
  rcases List.mem_cons.mp hc with rfl | hc2
  · rfl
  · rw [List.eq_of_mem_replicate hc2]
    rfl

theorem skipWs_nlIndent (n : Nat) (cs : List Char) :
    skipWs (nlIndent n ++ cs) = skipWs cs :=
  skipWs_ws_prefix _ _ (nlIndent_ws n)

theorem parseJVal_ws_prefix (fuel : Nat) (ws cs : List Char)
    (h : ∀ c ∈ ws, isJsonWs c = true) :
    parseJVal fuel (ws ++ cs) = parseJVal fuel cs := by
  cases fuel with
  | zero => rfl
  | succ f =>
    rw [parseJVal, parseJVal, skipWs_ws_prefix ws cs h]

theorem charOfNatAux_toNat (c : Char) (h : c.toNat.isValidChar) :
    Char.ofNatAux c.toNat h = c := by
  apply Char.ext
  rfl

theorem hexVal_digitChar_lt16 : ∀ d, d < 16 → hexVal (Nat.digitChar d) = some d := by
  decide

example : (8 : Nat) < 16 := by decide

theorem parseJStrBody_escape :
    ∀ cs rest, parseJStrBody (jsonEscList cs ++ '"' :: rest) = some (cs, rest)
  | [], rest => by
    rw [jsonEscList, List.nil_append, parseJStrBody.eq_def]
    simp
  | c :: cs, rest => by
    have ih := parseJStrBody_escape cs rest
    rw [jsonEscList, List.append_assoc]
    by_cases h1 : c = '"'
    · subst h1
      rw [parseJStrBody.eq_def]
      simp +decide [jsonEscChar, ih]
    by_cases h2 : c = '\\'
    · subst h2
      rw [parseJStrBody.eq_def]
      simp +decide [jsonEscChar, ih]
    by_cases h3 : c = '\n'
    · subst h3
      rw [parseJStrBody.eq_def]
      simp +decide [jsonEscChar, ih]
    by_cases h4 : c = '\t'
    · subst h4
      rw [parseJStrBody.eq_def]
      simp +decide [jsonEscChar, ih]
    by_cases h5 : c = '\r'
    · subst h5
      rw [parseJStrBody.eq_def]
      simp +decide [jsonEscChar, ih]
    by_cases h6 : c = '\x08'
    · subst h6
      rw [parseJStrBody.eq_def]
      simp +decide [jsonEscChar, ih]
    by_cases h7 : c = '\x0c'
    · subst h7
      rw [parseJStrBody.eq_def]
      simp +decide [jsonEscChar, ih]
    by_cases h8 : c.toNat < 0x20
    · have hesc : jsonEscChar c
          = ['\\', 'u', '0', '0', Nat.digitChar (c.toNat / 16), Nat.digitChar (c.toNat % 16)] := by
        simp [jsonEscChar, h1, h2, h3, h4, h5, h6, h7, h8]
      have hv1 : hexVal '0' = some 0 := by decide
      have hv3 : hexVal (Nat.digitChar (c.toNat / 16)) = some (c.toNat / 16) :=
        hexVal_digitChar_lt16 _ (by omega)
      have hv4 : hexVal (Nat.digitChar (c.toNat % 16)) = some (c.toNat % 16) :=
        hexVal_digitChar_lt16 _ (Nat.mod_lt _ (by norm_num))
      have hmod : 16 * (c.toNat / 16) + c.toNat % 16 = c.toNat := Nat.div_add_mod _ _
      have hvalid : c.toNat.isValidChar := c.valid
      rw [hesc, List.cons_append, parseJStrBody.eq_def]
      simp +decide [hv1, hv3, hv4, hmod, hvalid, charOfNatAux_toNat, ih]
    · have hesc : jsonEscChar c = [c] := by
        simp [jsonEscChar, h1, h2, h3, h4, h5, h6, h7, h8]
      rw [hesc, List.cons_append, List.nil_append, parseJStrBody.eq_def]
      simp [h1, h2, h8, ih]

/-- Whether a character sequence may directly follow a serialized JSON
number without extending it (nothing, or a character that is neither a
digit nor a float marker). -/
def numBoundary (cs : List Char) : Bool :=
  match cs with
  | [] => true
  | c :: _ => !(c.isDigit || c = '.' || c = 'e' || c = 'E')

theorem digitChar_isDigit_of_lt : ∀ d, d < 10 → (Nat.digitChar d).isDigit = true := by
  decide

theorem digitVal_digitChar_of_lt : ∀ d, d < 10 → digitVal (Nat.digitChar d) = d := by
  decide

theorem parseDigitsAux_digits :
    ∀ (ds : List Nat) (acc : Nat) (rest : List Char),
      (∀ d ∈ ds, d < 10) →
      (rest = [] ∨ ∃ c t, rest = c :: t ∧ c.isDigit = false) →
      parseDigitsAux acc (ds.map Nat.digitChar ++ rest)
        = (ds.foldl (fun a d => a * 10 + d) acc, rest)
  | [], acc, rest, _, hrest => by
    rcases hrest with rfl | ⟨c, t, rfl, hc⟩
    · rfl
    · rw [List.map_nil, List.nil_append, parseDigitsAux, if_neg (by simp [hc])]
      simp
  | d :: ds, acc, rest, hds, hrest => by
    have hd := hds d (List.mem_cons_self _ _)
    have hdig : (Nat.digitChar d).isDigit = true := digitChar_isDigit_of_lt d hd
    have hval : digitVal (Nat.digitChar d) = d := digitVal_digitChar_of_lt d hd
    rw [List.map_cons, List.cons_append, parseDigitsAux, if_pos hdig, hval,
      parseDigitsAux_digits ds (acc * 10 + d) rest
        (fun x hx => hds x (List.mem_cons_of_mem _ hx)) hrest]
    rfl

theorem foldl_base10_reverse :
    ∀ (ds : List Nat) (acc : Nat),
      (ds.reverse).foldl (fun a d => a * 10 + d) acc
        = acc * 10 ^ ds.length + Nat.ofDigits 10 ds
  | [], acc => by simp [Nat.ofDigits]
  | d :: ds, acc => by
    rw [List.reverse_cons, List.foldl_append, foldl_base10_reverse ds acc]
    simp only [List.foldl_cons, List.foldl_nil, Nat.ofDigits_cons, List.length_cons]
    ring

theorem natDecChars_eq_map (n : Nat) (hn : n ≠ 0) :
    natDecChars n = ((Nat.digits 10 n).reverse).map Nat.digitChar := by
  rw [natDecChars, if_neg hn, natDigitsRev_eq_digits n n le_rfl, List.map_reverse]

theorem parseDigitsAux_natDecChars (n : Nat) (rest : List Char)
    (hrest : rest = [] ∨ ∃ c t, rest = c :: t ∧ c.isDigit = false) :
    parseDigitsAux 0 (natDecChars n ++ rest) = (n, rest) := by
  by_cases hn : n = 0
  · subst hn
    have h0 : natDecChars 0 = [0].map Nat.digitChar := rfl
    rw [h0, parseDigitsAux_digits [0] 0 rest (by simp) hrest]
    rfl
  · rw [natDecChars_eq_map n hn,
      parseDigitsAux_digits _ 0 rest
        (fun d hd => Nat.digits_lt_base (by norm_num) (List.mem_reverse.mp hd)) hrest,
      foldl_base10_reverse]
    simp [Nat.ofDigits_digits]

theorem digitChar_ne_dash_of_lt : ∀ d, d < 10 → ¬(Nat.digitChar d = '-') := by
  decide

theorem natDecChars_head (n : Nat) :
    ∃ d t, d < 10 ∧ natDecChars n = Nat.digitChar d :: t := by
  by_cases hn : n = 0
  · subst hn
    exact ⟨0, [], by norm_num, rfl⟩
  · rw [natDecChars_eq_map n hn]
    cases hrev : (Nat.digits 10 n).reverse with
    | nil =>
      exfalso
      have hne : Nat.digits 10 n ≠ [] := Nat.digits_ne_nil_iff_ne_zero.mpr hn
      rw [← List.reverse_reverse (Nat.digits 10 n), hrev] at hne
      exact hne rfl
    | cons d t =>
      refine ⟨d, t.map Nat.digitChar, ?_, rfl⟩
      have hdm : d ∈ (Nat.digits 10 n).reverse := by
        rw [hrev]
        exact List.mem_cons_self _ _
      exact Nat.digits_lt_base (by norm_num) (List.mem_reverse.mp hdm)

theorem parseJNum_pyIntStr (i : Int) (rest : List Char) (hrest : numBoundary rest = true) :
    parseJNum ((pyIntStr i).data ++ rest) = some (i, rest) := by
  have hb : rest = [] ∨ ∃ c t, rest = c :: t ∧ c.isDigit = false := by
    cases rest with
    | nil => exact Or.inl rfl
    | cons c t =>
      simp [numBoundary] at hrest
      exact Or.inr ⟨c, t, rfl, hrest.1.1.1⟩
  obtain ⟨d, t, hd10, hcons⟩ := natDecChars_head i.natAbs
  have hpd := parseDigitsAux_natDecChars i.natAbs rest hb
  rw [hcons, List.cons_append] at hpd
  have hdig := digitChar_isDigit_of_lt d hd10
  have hdnm := digitChar_ne_dash_of_lt d hd10
  have habs : ((i.natAbs : Int)) = |i| := Int.natCast_natAbs i
  by_cases hi : i < 0
  · have hdata : (pyIntStr i).data = '-' :: natDecChars i.natAbs := by
      simp [pyIntStr, hi]
    rw [hdata, List.cons_append, hcons, List.cons_append]
    have hneg : -|i| = i := by
      rw [← habs]
      omega
    rcases hb with rfl | ⟨c, t2, rfl, hcd⟩
    · rw [List.append_nil] at hpd
      simp +decide [parseJNum, hdig, hpd, hneg, habs]
    · simp [numBoundary] at hrest
      simp +decide [parseJNum, hdig, hpd, hneg, habs, hrest.1.1.2, hrest.1.2, hrest.2]
  · have hdata : (pyIntStr i).data = natDecChars i.natAbs := by
      simp [pyIntStr, hi]
    rw [hdata, hcons, List.cons_append]
    have hpos : |i| = i := by
      rw [← habs]
      omega
    rcases hb with rfl | ⟨c, t2, rfl, hcd⟩
    · rw [List.append_nil] at hpd
      simp +decide [parseJNum, hdig, hdnm, hpd, hpos, habs]
    · simp [numBoundary] at hrest
      simp +decide [parseJNum, hdig, hdnm, hpd, hpos, habs, hrest.1.1.2, hrest.1.2, hrest.2]

theorem dictInsert_fresh {α : Type _} {d : List (String × α)} {k : String} {v : α}
    (h : List.lookup k d = Option.none) : dictInsert d k v = d ++ [(k, v)] := by
  simp [dictInsert, h]

theorem pyWfDict_cons {k : String} {v : PyVal} {ms : List (String × PyVal)} :
    pyWfDict ((k, v) :: ms) = true
      ↔ List.lookup k ms = Option.none ∧ pyWf v = true ∧ pyWfDict ms = true := by
  rw [pyWfDict]
  simp [Option.isNone_iff_eq_none, and_assoc]

theorem buildPyDict_id_aux :
    ∀ (ms acc : List (String × PyVal)), pyWfDict ms = true →
      (∀ p ∈ ms, List.lookup p.1 acc = Option.none) →
      ms.foldl (fun d p => dictInsert d p.1 p.2) acc = acc ++ ms
  | [], acc, _, _ => by simp
  | (k, v) :: ms, acc, hwf, hacc => by
    obtain ⟨hk, _, hrest⟩ := pyWfDict_cons.mp hwf
    rw [List.foldl_cons]
    have hfresh : List.lookup k acc = Option.none := hacc (k, v) (List.mem_cons_self _ _)
    rw [show dictInsert acc (k, v).1 (k, v).2 = acc ++ [(k, v)] from dictInsert_fresh hfresh]
    rw [buildPyDict_id_aux ms (acc ++ [(k, v)]) hrest ?_]
    · rw [List.append_assoc]
      rfl
    · intro p hp
      have h1 : List.lookup p.1 acc = Option.none := hacc p (List.mem_cons_of_mem _ hp)
      have hpk : p.1 ≠ k := (lookup_eq_none_iff k ms).mp hk p hp
      rw [lookup_append_none _ h1, lookup_cons_ne hpk]
      rfl

theorem buildPyDict_id (ms : List (String × PyVal)) (hwf : pyWfDict ms = true) :
    buildPyDict ms = ms := by
  unfold buildPyDict
  rw [buildPyDict_id_aux ms [] hwf (by simp)]
  rfl

theorem parseJVal_dump_null (f ind : Nat) (rest : List Char) :
    parseJVal (f + 1) (jsonDumpVal ind .none ++ rest) = some (.none, rest) := by
  rw [show jsonDumpVal ind .none = ['n', 'u', 'l', 'l'] from rfl]
  simp +decide [parseJVal, skipWs, isJsonWs]

theorem parseJVal_dump_bool (f ind : Nat) (b : Bool) (rest : List Char) :
    parseJVal (f + 1) (jsonDumpVal ind (.bool b) ++ rest) = some (.bool b, rest) := by
  cases b
  · rw [show jsonDumpVal ind (.bool false) = ['f', 'a', 'l', 's', 'e'] from rfl]
    simp +decide [parseJVal, skipWs, isJsonWs]
  · rw [show jsonDumpVal ind (.bool true) = ['t', 'r', 'u', 'e'] from rfl]
    simp +decide [parseJVal, skipWs, isJsonWs]

theorem parseJVal_dump_str (f ind : Nat) (s : String) (rest : List Char) :
    parseJVal (f + 1) (jsonDumpVal ind (.str s) ++ rest) = some (.str s, rest) := by
  have hshape : jsonDumpVal ind (.str s) ++ rest
      = '"' :: (jsonEscList s.data ++ '"' :: rest) := by
    rw [jsonDumpVal, jsonStrChars]
    simp
  rw [hshape, parseJVal]
  rw [skipWs_cons_not_ws (by decide)]
  simp +decide [parseJStrBody_escape s.data rest]

theorem pyIntStr_head (i : Int) :
    ∃ c0 t0, (pyIntStr i).data = c0 :: t0 ∧ isJsonWs c0 = false ∧
      ¬c0 = '{' ∧ ¬c0 = '[' ∧ ¬c0 = '"' ∧ ¬c0 = 'n' ∧ ¬c0 = 't' ∧ ¬c0 = 'f' := by
  have hfacts : ∀ d, d < 10 → isJsonWs (Nat.digitChar d) = false ∧
      ¬Nat.digitChar d = '{' ∧ ¬Nat.digitChar d = '[' ∧ ¬Nat.digitChar d = '"' ∧
      ¬Nat.digitChar d = 'n' ∧ ¬Nat.digitChar d = 't' ∧ ¬Nat.digitChar d = 'f' := by
    decide
  obtain ⟨d, t, hd10, hcons⟩ := natDecChars_head i.natAbs
  by_cases hi : i < 0
  · refine ⟨'-', natDecChars i.natAbs, by simp [pyIntStr, hi], by decide, by decide,
      by decide, by decide, by decide, by decide, by decide⟩
  · obtain ⟨h1, h2, h3, h4, h5, h6, h7⟩ := hfacts d hd10
    exact ⟨Nat.digitChar d, t, by simp [pyIntStr, hi, hcons], h1, h2, h3, h4, h5, h6, h7⟩

theorem parseJVal_dump_int (f ind : Nat) (i : Int) (rest : List Char)
    (hnb : numBoundary rest = true) :
    parseJVal (f + 1) (jsonDumpVal ind (.int i) ++ rest) = some (.int i, rest) := by
  obtain ⟨c0, t0, hdata, hws, hb1, hb2, hb3, hb4, hb5, hb6⟩ := pyIntStr_head i
  have hnum := parseJNum_pyIntStr i rest hnb
  rw [hdata, List.cons_append] at hnum
  rw [jsonDumpVal, hdata, List.cons_append]
  rw [parseJVal, skipWs_cons_not_ws hws]
  simp [hb1, hb2, hb3, hb4, hb5, hb6, hnum]

theorem parseJVal_dump_emptylist (f ind : Nat) (rest : List Char) :
    parseJVal (f + 1) (jsonDumpVal ind (.list []) ++ rest) = some (.list [], rest) := by
  rw [show jsonDumpVal ind (.list []) = ['[', ']'] from rfl]
  simp +decide [parseJVal, skipWs, isJsonWs]

theorem parseJVal_dump_emptydict (f ind : Nat) (rest : List Char) :
    parseJVal (f + 1) (jsonDumpVal ind (.dict []) ++ rest) = some (.dict [], rest) := by
  rw [show jsonDumpVal ind (.dict []) = ['\x7b', '\x7d'] from rfl]
  simp +decide [parseJVal, skipWs, isJsonWs, buildPyDict]

theorem pySize_pos : ∀ v : PyVal, 1 ≤ pySize v := by
  intro v
  cases v <;> simp [pySize]

theorem pyWfList_mem : ∀ xs : List PyVal, pyWfList xs = true → ∀ v ∈ xs, pyWf v = true
  | [], _, v, hv => by simp at hv
  | x :: xs, h, v, hv => by
    rw [pyWfList, Bool.and_eq_true] at h
    rcases List.mem_cons.mp hv with rfl | hv2
    · exact h.1
    · exact pyWfList_mem xs h.2 v hv2

theorem pyWfDict_mem : ∀ xs : List (String × PyVal), pyWfDict xs = true →
    ∀ p ∈ xs, pyWf p.2 = true
  | [], _, p, hp => by simp at hp
  | (k, v) :: xs, h, p, hp => by
    obtain ⟨_, hv, hrest⟩ := pyWfDict_cons.mp h
    rcases List.mem_cons.mp hp with rfl | hp2
    · exact hv
    · exact pyWfDict_mem xs hrest p hp2

theorem jsonDumpVal_head (ind : Nat) (v : PyVal) :
    ∃ c0 t0, jsonDumpVal ind v = c0 :: t0 ∧ isJsonWs c0 = false ∧
      ¬c0 = '\x7d' ∧ ¬c0 = ']' := by
  cases v with
  | none => exact ⟨'n', _, rfl, by decide, by decide, by decide⟩
  | bool b =>
    cases b
    · exact ⟨'f', _, rfl, by decide, by decide, by decide⟩
    · exact ⟨'t', _, rfl, by decide, by decide, by decide⟩
  | int i =>
    have hfacts : ∀ d, d < 10 → isJsonWs (Nat.digitChar d) = false ∧
        ¬Nat.digitChar d = '\x7d' ∧ ¬Nat.digitChar d = ']' := by
      decide
    obtain ⟨d, t, hd10, hcons⟩ := natDecChars_head i.natAbs
    by_cases hi : i < 0
    · exact ⟨'-', natDecChars i.natAbs, by rw [jsonDumpVal]; simp [pyIntStr, hi],
        by decide, by decide, by decide⟩
    · obtain ⟨h1, h2, h3⟩ := hfacts d hd10
      exact ⟨Nat.digitChar d, t, by rw [jsonDumpVal]; simp [pyIntStr, hi, hcons], h1, h2, h3⟩
  | str s =>
    exact ⟨'"', jsonEscList s.data ++ ['"'], by rw [jsonDumpVal, jsonStrChars]; rfl,
      by decide, by decide, by decide⟩
  | list xs =>
    cases xs with
    | nil => exact ⟨'[', _, rfl, by decide, by decide, by decide⟩
    | cons x t => exact ⟨'[', _, rfl, by decide, by decide, by decide⟩
  | dict xs =>
    cases xs with
    | nil => exact ⟨'\x7b', _, rfl, by decide, by decide, by decide⟩
    | cons x t => exact ⟨'\x7b', _, rfl, by decide, by decide, by decide⟩

theorem dumpItems_shape (indC : Nat) (x : PyVal) (xs : List PyVal) (Y : List Char) :
    ∃ Z, jsonDumpItems indC (x :: xs) ++ Y = nlIndent indC ++ (jsonDumpVal indC x ++ Z) ∧
      ((xs = [] ∧ Z = Y) ∨ (xs ≠ [] ∧ Z = ',' :: (jsonDumpItems indC xs ++ Y))) := by
  cases xs with
  | nil =>
    refine ⟨Y, ?_, Or.inl ⟨rfl, rfl⟩⟩
    show (nlIndent indC ++ jsonDumpVal indC x) ++ Y = _
    simp
  | cons y ys =>
    refine ⟨',' :: (jsonDumpItems indC (y :: ys) ++ Y), ?_, Or.inr ⟨by simp, rfl⟩⟩
    show (nlIndent indC ++ jsonDumpVal indC x ++ ',' :: jsonDumpItems indC (y :: ys)) ++ Y = _
    simp

theorem dumpMembers_shape (indC : Nat) (k : String) (v : PyVal)
    (xs : List (String × PyVal)) (Y : List Char) :
    ∃ Z, jsonDumpMembers indC ((k, v) :: xs) ++ Y
        = nlIndent indC ++
            ('"' :: (jsonEscList k.data ++ '"' :: ':' :: ' ' :: (jsonDumpVal indC v ++ Z))) ∧
      ((xs = [] ∧ Z = Y) ∨ (xs ≠ [] ∧ Z = ',' :: (jsonDumpMembers indC xs ++ Y))) := by
  cases xs with
  | nil =>
    refine ⟨Y, ?_, Or.inl ⟨rfl, rfl⟩⟩
    show (nlIndent indC ++ (jsonStrChars k ++ ':' :: ' ' :: jsonDumpVal indC v)) ++ Y = _
    simp [jsonStrChars]
  | cons q qs =>
    refine ⟨',' :: (jsonDumpMembers indC (q :: qs) ++ Y), ?_, Or.inr ⟨by simp, rfl⟩⟩
    show (nlIndent indC ++ (jsonStrChars k ++ ':' :: ' ' :: jsonDumpVal indC v)
        ++ ',' :: jsonDumpMembers indC (q :: qs)) ++ Y = _
    simp [jsonStrChars]

theorem numBoundary_Z {ind0 : Nat} {rest Y Z : List Char} {close : Char}
    (hY : Y = nlIndent ind0 ++ close :: rest)
    (hZ : Z = Y ∨ ∃ t, Z = ',' :: t) : numBoundary Z = true := by
  rcases hZ with rfl | ⟨t, rfl⟩
  · rw [hY]
    rfl
  · rfl

theorem skipWs_idem : ∀ cs : List Char, skipWs (skipWs cs) = skipWs cs
  | [] => rfl
  | c :: rest => by
    by_cases h : isJsonWs c = true
    · rw [skipWs, if_pos h]
      exact skipWs_idem rest
    · have hf : isJsonWs c = false := by
        cases hc : isJsonWs c
        · rfl
        · exact absurd hc h
      rw [skipWs_cons_not_ws hf, skipWs_cons_not_ws hf]

theorem parseJVal_skipWs (fuel : Nat) (cs : List Char) :
    parseJVal fuel (skipWs cs) = parseJVal fuel cs := by
  cases fuel with
  | zero => rfl
  | succ f => rw [parseJVal, parseJVal, skipWs_idem]

theorem skipWs_replicate (n : Nat) (cs : List Char) :
    skipWs (List.replicate n ' ' ++ cs) = skipWs cs :=
  skipWs_ws_prefix _ _ (fun c hc => by rw [List.eq_of_mem_replicate hc]; rfl)

theorem parse_dump_round : ∀ fuel : Nat,
    (∀ (v : PyVal) (ind : Nat) (rest : List Char),
       pySize v ≤ fuel → pyWf v = true → numBoundary rest = true →
       parseJVal fuel (jsonDumpVal ind v ++ rest) = some (v, rest)) ∧
    (∀ (xs : List (String × PyVal)) (indC ind0 : Nat) (rest : List Char),
       xs ≠ [] → pySizeDict xs ≤ fuel → (∀ p ∈ xs, pyWf p.2 = true) →
       parseJMembers fuel (skipWs (jsonDumpMembers indC xs ++ (nlIndent ind0 ++ '\x7d' :: rest)))
         = some (xs, rest)) ∧
    (∀ (xs : List PyVal) (indC ind0 : Nat) (rest : List Char),
       xs ≠ [] → pySizeList xs ≤ fuel → (∀ v ∈ xs, pyWf v = true) →
       parseJItems fuel (skipWs (jsonDumpItems indC xs ++ (nlIndent ind0 ++ ']' :: rest)))
         = some (xs, rest)) := by
  intro fuel
  induction fuel with
  | zero =>
    refine ⟨?_, ?_, ?_⟩
    · intro v ind rest hsz _ _
      exact absurd hsz (by have := pySize_pos v; omega)
    · intro xs _ _ _ hne hsz _
      cases xs with
      | nil => exact absurd rfl hne
      | cons p t =>
        obtain ⟨k, v⟩ := p
        have he : pySizeDict ((k, v) :: t) = 1 + pySize v + pySizeDict t := rfl
        exact absurd hsz (by omega)
    · intro xs _ _ _ hne hsz _
      cases xs with
      | nil => exact absurd rfl hne
      | cons x t =>
        have he : pySizeList (x :: t) = 1 + pySize x + pySizeList t := rfl
        exact absurd hsz (by omega)
  | succ f ih =>
    obtain ⟨ih1, ih2, ih3⟩ := ih
    refine ⟨?_, ?_, ?_⟩
    · -- values
      intro v ind rest hsz hwf hnb
      cases v with
      | none => exact parseJVal_dump_null f ind rest
      | bool b => exact parseJVal_dump_bool f ind b rest
      | str s => exact parseJVal_dump_str f ind s rest
      | int i => exact parseJVal_dump_int f ind i rest hnb
      | list xs =>
        cases xs with
        | nil => exact parseJVal_dump_emptylist f ind rest
        | cons x xs2 =>
          have hse : pySize (PyVal.list (x :: xs2)) = 1 + pySizeList (x :: xs2) := rfl
          have hsz2 : pySizeList (x :: xs2) ≤ f := by omega
          have hwf2 : ∀ w ∈ x :: xs2, pyWf w = true := by
            rw [pyWf] at hwf
            exact pyWfList_mem _ hwf
          have hshape : jsonDumpVal ind (.list (x :: xs2)) ++ rest
              = '[' :: (jsonDumpItems (ind + 2) (x :: xs2) ++ (nlIndent ind ++ (']' :: rest))) := by
            show ('[' :: (jsonDumpItems (ind + 2) (x :: xs2) ++ nlIndent ind ++ [']'])) ++ rest = _
            simp
          obtain ⟨c0, t0, hhead, hc0ws, hc0brace, hc0brack⟩ := jsonDumpVal_head (ind + 2) x
          obtain ⟨Z, hZ, hZcase⟩ :=
            dumpItems_shape (ind + 2) x xs2 (nlIndent ind ++ (']' :: rest))
          have hskip : skipWs (jsonDumpItems (ind + 2) (x :: xs2) ++ (nlIndent ind ++ (']' :: rest)))
              = c0 :: (t0 ++ Z) := by
            rw [hZ, skipWs_nlIndent, hhead, List.cons_append, skipWs_cons_not_ws hc0ws]
          have hP3 := ih3 (x :: xs2) (ind + 2) ind rest (by simp) hsz2 hwf2
          rw [hskip] at hP3
          rw [hshape, parseJVal, skipWs_cons_not_ws (by decide)]
          simp +decide [hskip, hc0brack, hP3]
      | dict xs =>
        cases xs with
        | nil => exact parseJVal_dump_emptydict f ind rest
        | cons x xs2 =>
          obtain ⟨k, v⟩ := x
          have hse : pySize (PyVal.dict ((k, v) :: xs2))
              = 1 + (1 + pySize v + pySizeDict xs2) := rfl
          have hsz2 : pySizeDict ((k, v) :: xs2) ≤ f := by
            have he : pySizeDict ((k, v) :: xs2) = 1 + pySize v + pySizeDict xs2 := rfl
            omega
          have hwfd : pyWfDict ((k, v) :: xs2) = true := by
            rw [pyWf] at hwf
            exact hwf
          have hwf2 : ∀ p ∈ (k, v) :: xs2, pyWf p.2 = true := pyWfDict_mem _ hwfd
          have hshape : jsonDumpVal ind (.dict ((k, v) :: xs2)) ++ rest
              = '\x7b' :: (jsonDumpMembers (ind + 2) ((k, v) :: xs2)
                  ++ (nlIndent ind ++ ('\x7d' :: rest))) := by
            show ('\x7b' :: (jsonDumpMembers (ind + 2) ((k, v) :: xs2)
                ++ nlIndent ind ++ ['\x7d'])) ++ rest = _
            simp
          obtain ⟨Z, hZ, hZcase⟩ :=
            dumpMembers_shape (ind + 2) k v xs2 (nlIndent ind ++ ('\x7d' :: rest))
          have hskip : skipWs (jsonDumpMembers (ind + 2) ((k, v) :: xs2)
                ++ (nlIndent ind ++ ('\x7d' :: rest)))
              = '"' :: (jsonEscList k.data ++ '"' :: ':' :: ' ' :: (jsonDumpVal (ind + 2) v ++ Z)) := by
            rw [hZ, skipWs_nlIndent, skipWs_cons_not_ws (by decide)]
          have hP2 := ih2 ((k, v) :: xs2) (ind + 2) ind rest (by simp) hsz2 hwf2
          rw [hskip] at hP2
          rw [hshape, parseJVal, skipWs_cons_not_ws (by decide)]
          simp +decide [hskip, hP2, buildPyDict_id _ hwfd]
    · -- members
      intro xs indC ind0 rest hne hsz hwf
      cases xs with
      | nil => exact absurd rfl hne
      | cons x tail =>
        obtain ⟨k, v⟩ := x
        have hse : pySizeDict ((k, v) :: tail) = 1 + pySize v + pySizeDict tail := rfl
        obtain ⟨Z, hZ, hZcase⟩ := dumpMembers_shape indC k v tail (nlIndent ind0 ++ '\x7d' :: rest)
        rw [hZ, skipWs_nlIndent, skipWs_cons_not_ws (by decide)]
        rw [parseJMembers]
        have hesc := parseJStrBody_escape k.data (':' :: ' ' :: (jsonDumpVal indC v ++ Z))
        have hszv : pySize v ≤ f := by omega
        have hnbZ : numBoundary Z = true := by
          rcases hZcase with ⟨_, rfl⟩ | ⟨_, rfl⟩
          · rfl
          · rfl
        have hval := ih1 v indC Z hszv (hwf (k, v) (List.mem_cons_self _ _)) hnbZ
        have hvws : parseJVal f (' ' :: (jsonDumpVal indC v ++ Z)) = some (v, Z) := by
          rw [show (' ' :: (jsonDumpVal indC v ++ Z)) = [' '] ++ (jsonDumpVal indC v ++ Z) from rfl,
            parseJVal_ws_prefix f [' '] _ (by decide)]
          exact hval
        have heta : String.mk k.data = k := rfl
        rcases hZcase with ⟨htail, rfl⟩ | ⟨htail, rfl⟩
        · subst htail
          simp +decide [hesc, hvws, skipWs_nlIndent, skipWs_replicate, skipWs, isJsonWs, heta]
        · have htl : parseJMembers f (skipWs (jsonDumpMembers indC tail
              ++ (nlIndent ind0 ++ '\x7d' :: rest))) = some (tail, rest) := by
            apply ih2 tail indC ind0 rest htail ?_ (fun p hp => hwf p (List.mem_cons_of_mem _ hp))
            have he2 : 1 ≤ pySizeDict tail := by
              cases tail with
              | nil => exact absurd rfl htail
              | cons q qs =>
                obtain ⟨qk, qv⟩ := q
                have : pySizeDict ((qk, qv) :: qs) = 1 + pySize qv + pySizeDict qs := rfl
                omega
            omega
          simp +decide [hesc, hvws, htl, skipWs, isJsonWs, heta]
    · -- items
      intro xs indC ind0 rest hne hsz hwf
      cases xs with
      | nil => exact absurd rfl hne
      | cons x tail =>
        have hse : pySizeList (x :: tail) = 1 + pySize x + pySizeList tail := rfl
        obtain ⟨Z, hZ, hZcase⟩ := dumpItems_shape indC x tail (nlIndent ind0 ++ ']' :: rest)
        rw [hZ, skipWs_nlIndent]
        rw [parseJItems]
        have hszv : pySize x ≤ f := by omega
        have hnbZ : numBoundary Z = true := by
          rcases hZcase with ⟨_, rfl⟩ | ⟨_, rfl⟩
          · rfl
          · rfl
        have hval := ih1 x indC Z hszv (hwf x (List.mem_cons_self _ _)) hnbZ
        have hvws : parseJVal f (skipWs (jsonDumpVal indC x ++ Z)) = some (x, Z) := by
          rw [parseJVal_skipWs]
          exact hval
        rcases hZcase with ⟨htail, rfl⟩ | ⟨htail, rfl⟩
        · subst htail
          simp +decide [hvws, skipWs_nlIndent, skipWs_replicate, skipWs, isJsonWs]
        · have htl : parseJItems f (skipWs (jsonDumpItems indC tail
              ++ (nlIndent ind0 ++ ']' :: rest))) = some (tail, rest) := by
            apply ih3 tail indC ind0 rest htail ?_ (fun w hw => hwf w (List.mem_cons_of_mem _ hw))
            have he2 : 1 ≤ pySizeList tail := by
              cases tail with
              | nil => exact absurd rfl htail
              | cons q qs =>
                have : pySizeList (q :: qs) = 1 + pySize q + pySizeList qs := rfl
                omega
            omega
          simp +decide [hvws, htl, skipWs, isJsonWs]

theorem nlIndent_length (n : Nat) : (nlIndent n).length = n + 1 := by
  simp [nlIndent]

mutual

theorem pySize_le_dumpLen : ∀ (v : PyVal) (ind : Nat), pySize v ≤ (jsonDumpVal ind v).length
  | .none, ind => by
    show 1 ≤ ("null".data).length
    decide
  | .bool b, ind => by
    cases b
    · show 1 ≤ ("false".data).length
      decide
    · show 1 ≤ ("true".data).length
      decide
  | .int i, ind => by
    obtain ⟨d, t, _, hcons⟩ := natDecChars_head i.natAbs
    show 1 ≤ _
    by_cases hi : i < 0
    · rw [jsonDumpVal]
      simp [pyIntStr, hi]
    · rw [jsonDumpVal]
      simp [pyIntStr, hi, hcons]
  | .str s, ind => by
    show 1 ≤ _
    rw [jsonDumpVal, jsonStrChars]
    simp
  | .list xs, ind => by
    cases xs with
    | nil =>
      show 1 ≤ (['[', ']'] : List Char).length
      decide
    | cons x t =>
      have h1 := pySizeList_le_itemsLen (x :: t) (ind + 2)
      have he : pySize (PyVal.list (x :: t)) = 1 + pySizeList (x :: t) := rfl
      have hd : (jsonDumpVal ind (PyVal.list (x :: t))).length
          = 1 + ((jsonDumpItems (ind + 2) (x :: t)).length + ((nlIndent ind).length + 1)) := by
        show ('[' :: (jsonDumpItems (ind + 2) (x :: t) ++ nlIndent ind ++ [']'])).length = _
        simp
        omega
      omega
  | .dict xs, ind => by
    cases xs with
    | nil =>
      show 1 ≤ (['\x7b', '\x7d'] : List Char).length
      decide
    | cons x t =>
      have h1 := pySizeDict_le_membersLen (x :: t) (ind + 2)
      have he : pySize (PyVal.dict (x :: t)) = 1 + pySizeDict (x :: t) := rfl
      have hd : (jsonDumpVal ind (PyVal.dict (x :: t))).length
          = 1 + ((jsonDumpMembers (ind + 2) (x :: t)).length + ((nlIndent ind).length + 1)) := by
        show ('\x7b' :: (jsonDumpMembers (ind + 2) (x :: t) ++ nlIndent ind ++ ['\x7d'])).length = _
        simp
        omega
      omega

theorem pySizeList_le_itemsLen : ∀ (xs : List PyVal) (ind : Nat),
    pySizeList xs ≤ (jsonDumpItems ind xs).length
  | [], ind => by simp [pySizeList, jsonDumpItems]
  | [v], ind => by
    have h1 := pySize_le_dumpLen v ind
    have he : pySizeList [v] = 1 + pySize v + 0 := rfl
    have hd : (jsonDumpItems ind [v]).length = (nlIndent ind).length + (jsonDumpVal ind v).length := by
      show (nlIndent ind ++ jsonDumpVal ind v).length = _
      simp
    have hn := nlIndent_length ind
    omega
  | v :: w :: rest, ind => by
    have h1 := pySize_le_dumpLen v ind
    have h2 := pySizeList_le_itemsLen (w :: rest) ind
    have he : pySizeList (v :: w :: rest) = 1 + pySize v + pySizeList (w :: rest) := rfl
    have hd : (jsonDumpItems ind (v :: w :: rest)).length
        = (nlIndent ind).length + (jsonDumpVal ind v).length
            + (1 + (jsonDumpItems ind (w :: rest)).length) := by
      show (nlIndent ind ++ jsonDumpVal ind v ++ ',' :: jsonDumpItems ind (w :: rest)).length = _
      simp
      omega
    have hn := nlIndent_length ind
    omega

theorem pySizeDict_le_membersLen : ∀ (xs : List (String × PyVal)) (ind : Nat),
    pySizeDict xs ≤ (jsonDumpMembers ind xs).length
  | [], ind => by simp [pySizeDict, jsonDumpMembers]
  | [(k, v)], ind => by
    have h1 := pySize_le_dumpLen v ind
    have he : pySizeDict [(k, v)] = 1 + pySize v + 0 := rfl
    have hd : (jsonDumpMembers ind [(k, v)]).length
        = (nlIndent ind).length + ((jsonStrChars k).length + (2 + (jsonDumpVal ind v).length)) := by
      show (nlIndent ind ++ (jsonStrChars k ++ ':' :: ' ' :: jsonDumpVal ind v)).length = _
      simp
      omega
    have hn := nlIndent_length ind
    omega
  | (k, v) :: q :: rest, ind => by
    have h1 := pySize_le_dumpLen v ind
    have h2 := pySizeDict_le_membersLen (q :: rest) ind
    have he : pySizeDict ((k, v) :: q :: rest) = 1 + pySize v + pySizeDict (q :: rest) := rfl
    have hd : (jsonDumpMembers ind ((k, v) :: q :: rest)).length
        = (nlIndent ind).length + ((jsonStrChars k).length + (2 + (jsonDumpVal ind v).length))
            + (1 + (jsonDumpMembers ind (q :: rest)).length) := by
      show (nlIndent ind ++ (jsonStrChars k ++ ':' :: ' ' :: jsonDumpVal ind v)
            ++ ',' :: jsonDumpMembers ind (q :: rest)).length = _
      simp
      omega
    have hn := nlIndent_length ind
    omega

end

/-- C10: saving a snapshot with `save_db` and reading it back with
`load_db` returns an equal snapshot, for every snapshot representable in
the durable format (string keys; JSON-representable, duplicate-free
event records, which every Python dict of API events is). -/
theorem save_then_load_identity (data : List (String × PyVal))
    (hwf : pyWf (.dict data) = true) :
    loadDb (some (saveDb data)) = .dict data := by
  have hlen := pySize_le_dumpLen (.dict data) 0
  have hd : (saveDb data).data = jsonDumpVal 0 (.dict data) := rfl
  have hfuel : pySize (.dict data) ≤ ((saveDb data).data).length + 1 := by
    rw [hd]
    omega
  have h := (parse_dump_round (((saveDb data).data).length + 1)).1 (.dict data) 0 [] hfuel hwf rfl
  rw [List.append_nil] at h
  rw [hd] at h
  unfold loadDb jsonLoads
  dsimp only
  rw [hd, h]
  simp [skipWs]

/-- A concrete snapshot exercising escapes, nested containers and all
atom kinds. -/
def snapW : List (String × PyVal) :=
  [("101", .dict
      [("id", .int 101), ("name", .str "Convoy \"A\"\nline2"),
       ("start_at", .str "2025-06-01 18:00:00"),
       ("tags", .list [.int 1, .int (-2), .bool true, .none, .str "é\x01"])])]

/-- C10 witness: the round trip on the concrete snapshot. -/
theorem save_then_load_identity_witness :
    loadDb (some (saveDb snapW)) = .dict snapW :=
  save_then_load_identity snapW (by decide)
